import Mathlib

/-!
Verification of the VIPUR feature-generation core (rosetta_feature_generation.py
and psiblast_feature_generation.py) against its natural-language specification.

The Python functions are embedded shallowly:

* Python `float` values become `ℚ` (the spec treats them as exact reals;
  every claim input is a finite decimal, which `ℚ` represents exactly).
* file access is factored out: each parser takes the list of lines of its
  input file (without trailing newline characters, matching the `rstrip('\n')`
  / `strip()` treatment every line receives in the source).
* runtime exceptions (`IndexError`, `ZeroDivisionError`, `ValueError`,
  `AssertionError`) are modelled by `Option`/`Except` results.
* constants imported from the absent `settings`/`vipur_settings` module
  (`ROSETTA_TERMS_TO_COMPARE`, `PROTEIN_LETTERS`, `AMINO_ACID_CODES`) are
  function parameters, exactly as the Python functions receive them through
  their keyword arguments.
-/

/-- Python `list.sort()`: ascending stable sort of a list of numbers. -/
def sortD (l : List ℚ) : List ℚ := List.insertionSort (· ≤ ·) l

/-- The default `tolerance = 1e-7` argument of the quartile functions. -/
def defaultTolerance : ℚ := 1e-7

/-- Python `abs(q)` on a number. -/
def pyabs (q : ℚ) : ℚ := if q < 0 then -q else q

/-- `[i for i in xrange(len(d)) if d[i] >= v][0]` from `determine_quartile`:
index of the first element that is `≥ v` (length of the list if none is). -/
def findGE (v : ℚ) : List ℚ → Nat
  | [] => 0
  | x :: xs => if v ≤ x then 0 else findGE v xs + 1

/-- `determine_quartile_value` (rosetta_feature_generation.py, lines 289-314):
value at quantile `quartile` of `distribution`, with linear interpolation.
`none` models the `IndexError` every path raises on an empty distribution. -/
def determine_quartile_value (quartile : ℚ) (distribution : List ℚ)
    (tolerance : ℚ) : Option ℚ :=
  let d := sortD distribution
  if d.length = 0 then none else
  let total : ℚ := (d.length : ℚ) - 1
  if quartile ≤ 0 then some (d.getD 0 0)
  else if 1 < quartile then some (d.getD (d.length - 1) 0)
  else
    let base_index : ℚ := quartile * total
    let remaining : ℚ := base_index - (⌊base_index⌋ : ℚ)
    if remaining < tolerance then some (d.getD (⌊base_index⌋.toNat) 0)
    else
      let b : Nat := ⌊base_index⌋.toNat
      some (d.getD b 0 + remaining * (d.getD (b + 1) 0 - d.getD b 0))

/-- `determine_quartile` (rosetta_feature_generation.py, lines 317-341):
quantile (normalized rank in `[0,1]`) of `quartile_value` on `distribution`.
`none` models the `IndexError` on an empty distribution and the
`ZeroDivisionError` of the final `quartile / total` when `total = 0`
(one-element distribution). -/
def determine_quartile (quartile_value : ℚ) (distribution : List ℚ)
    (tolerance : ℚ) : Option ℚ :=
  let d := sortD distribution
  if d.length = 0 then none else
  let total : ℚ := (d.length : ℚ) - 1
  let quartile : ℚ :=
    if quartile_value ≤ d.getD 0 0 then 0
    else if d.getD (d.length - 1) 0 ≤ quartile_value then total
    else
      let b := findGE quartile_value d
      if pyabs (d.getD b 0 - quartile_value) ≤ tolerance then (b : ℚ)
      else (b : ℚ) - 1 +
        (quartile_value - d.getD (b - 1) 0) / (d.getD b 0 - d.getD (b - 1) 0)
  if total = 0 then none else some (quartile / total)

/-- `determine_quartile_from_quartile_value_of_another_distribution`
(rosetta_feature_generation.py, lines 344-351); both callees run with their
default `tolerance = 1e-7`. -/
def determine_quartile_from_quartile_value_of_another_distribution
    (quartile : ℚ) (query_distribution reference_distribution : List ℚ) :
    Option ℚ :=
  (determine_quartile_value quartile query_distribution defaultTolerance).bind
    fun quartile_value =>
      determine_quartile quartile_value reference_distribution defaultTolerance

/-- `determine_quartile_value` with the in-place mutation of its `distribution`
argument made explicit: the Python function begins with `distribution.sort()`,
so the caller's list is in state `sortD distribution` after the call. The
second component is that final state. -/
def determine_quartile_value_state (quartile : ℚ) (distribution : List ℚ)
    (tolerance : ℚ) : Option ℚ × List ℚ :=
  (determine_quartile_value quartile distribution tolerance, sortD distribution)

/-- `determine_quartile` with the in-place `distribution.sort()` mutation of
its argument made explicit, as in `determine_quartile_value_state`. -/
def determine_quartile_state (quartile_value : ℚ) (distribution : List ℚ)
    (tolerance : ℚ) : Option ℚ × List ℚ :=
  (determine_quartile quartile_value distribution tolerance, sortD distribution)

/-- Python `s[:n]`. -/
def pyTake (s : String) (n : ℕ) : String := String.mk (s.toList.take n)

/-- Python `s[a:b]` (for `a ≤ b`). -/
def pySlice (s : String) (a b : ℕ) : String :=
  String.mk ((s.toList.drop a).take (b - a))

/-- The whitespace characters recognized by Python `str.strip()` that can
occur in these text files. -/
def isSpaceChar (c : Char) : Bool :=
  c = ' ' || c = '\t' || c = '\n' || c = '\r'

/-- Python `str.strip()`. -/
def pyStrip (s : String) : String :=
  String.mk (((s.toList.dropWhile isSpaceChar).reverse.dropWhile
    isSpaceChar).reverse)

/-- Python `s.split(' ')`: split at every single space character. -/
def splitOnSpace (cs : List Char) : List (List Char) :=
  cs.foldr
    (fun c acc =>
      if c = ' ' then [] :: acc
      else
        match acc with
        | [] => [[c]]
        | a :: rest => (c :: a) :: rest)
    [[]]

/-- The source's field splitter
`[j.strip() for j in s.split(' ') if j.strip()]`. -/
def pyFields (s : String) : List String :=
  ((splitOnSpace s.toList).map (fun cs => pyStrip (String.mk cs))).filter
    (fun x => x ≠ "")

/-- Python `s.replace(pat, rep)` on character lists: all non-overlapping
occurrences, left to right.  The fuel argument (always called with more fuel
than characters, so it never runs dry) keeps the recursion structural; every
step consumes at least one character because `pat` is non-empty at every
call site. -/
def replaceFuel (pat rep : List Char) : ℕ → List Char → List Char
  | 0, cs => cs
  | _ + 1, [] => []
  | fuel + 1, c :: rest =>
    if (c :: rest).take pat.length = pat ∧ pat ≠ [] then
      rep ++ replaceFuel pat rep fuel ((c :: rest).drop pat.length)
    else c :: replaceFuel pat rep fuel rest

/-- Python `s.replace(pat, rep)` (every call site has a non-empty `pat`). -/
def pyReplace (s pat rep : String) : String :=
  String.mk (replaceFuel pat.toList rep.toList (s.toList.length + 1) s.toList)

/-- Decidable equality of `Except` results, for evaluating the parsers on
concrete inputs. -/
instance {ε α : Type} [DecidableEq ε] [DecidableEq α] :
    DecidableEq (Except ε α) := fun x y =>
  match x, y with
  | Except.ok a, Except.ok b =>
    if h : a = b then Decidable.isTrue (h ▸ rfl)
    else Decidable.isFalse (fun hc => h (Except.ok.inj hc))
  | Except.error a, Except.error b =>
    if h : a = b then Decidable.isTrue (h ▸ rfl)
    else Decidable.isFalse (fun hc => h (Except.error.inj hc))
  | Except.ok _, Except.error _ => Decidable.isFalse (fun hc => Except.noConfusion hc)
  | Except.error _, Except.ok _ => Decidable.isFalse (fun hc => Except.noConfusion hc)

/-- Numeric value of a run of decimal digit characters. -/
def digitsToNat (ds : List Char) : ℕ :=
  ds.foldl (fun acc c => 10 * acc + (c.toNat - 48)) 0

/-- Split a character list at every dot (for `float()` parsing). -/
def splitOnDot (cs : List Char) : List (List Char) :=
  cs.foldr
    (fun c acc =>
      if c = '.' then [] :: acc
      else
        match acc with
        | [] => [[c]]
        | a :: rest => (c :: a) :: rest)
    [[]]

/-- Python `float(s)` on the plain decimal literals occurring in these files
(optional sign, digits, optional fractional part); `none` is the
`ValueError` on anything else. -/
def parsePyFloat (s : String) : Option ℚ :=
  let t := (pyStrip s).toList
  let sgn : ℤ := match t with
    | '-' :: _ => -1
    | _ => 1
  let ds : List Char := match t with
    | '-' :: rest => rest
    | '+' :: rest => rest
    | l => l
  match splitOnDot ds with
  | [ip] =>
    if ip ≠ [] ∧ ip.all Char.isDigit then some (mkRat (sgn * digitsToNat ip) 1)
    else none
  | [ip, fp] =>
    if (ip ≠ [] ∨ fp ≠ []) ∧ ip.all Char.isDigit ∧ fp.all Char.isDigit then
      some (mkRat (sgn * (digitsToNat ip * 10 ^ fp.length + digitsToNat fp))
        (10 ^ fp.length))
    else none
  | _ => none

/-- Python `int(s)`; `none` is the `ValueError`. -/
def parsePyInt (s : String) : Option ℤ :=
  let t := (pyStrip s).toList
  let sgn : ℤ := match t with
    | '-' :: _ => -1
    | _ => 1
  let ds : List Char := match t with
    | '-' :: rest => rest
    | '+' :: rest => rest
    | l => l
  if ds ≠ [] ∧ ds.all Char.isDigit then some (sgn * digitsToNat ds) else none

/-- Insert-or-overwrite into an association list: the model of assignment
into a Python `dict` (an existing key keeps its position). -/
def dictUpsert {α β : Type} [DecidableEq α] :
    List (α × β) → α → β → List (α × β)
  | [], k, v => [(k, v)]
  | (k', v') :: t, k, v =>
    if k' = k then (k, v) :: t else (k', v') :: dictUpsert t k v

/-- Python `d[k]` as an option (first matching key; keys are unique by
construction). -/
def dictFind {α β : Type} [DecidableEq α] : List (α × β) → α → Option β
  | [], _ => none
  | (k', v') :: t, k => if k' = k then some v' else dictFind t k

/-- `dict([(k, v) for k in ks])`. -/
def dictFromKeys {α β : Type} [DecidableEq α] (ks : List α) (v : β) :
    List (α × β) :=
  ks.foldl (fun acc k => dictUpsert acc k v) []

/-- `d[k].append(v)` for a dict of lists (no-op on an absent key, which no
call site reaches). -/
def dictAppendVal {α β : Type} [DecidableEq α] :
    List (α × List β) → α → β → List (α × List β)
  | [], _, _ => []
  | (k', vs) :: t, k, v =>
    if k' = k then (k', vs ++ [v]) :: t else (k', vs) :: dictAppendVal t k v

/-- A value in a Score Distribution Table: a float for terms named in
`as_float`, otherwise the raw text field. -/
inductive ScoreValue : Type where
  | flt (x : ℚ)
  | txt (s : String)
deriving DecidableEq

/-- Failures of `extract_scores_from_scorefile`: the `IOError` raised on a
column-count mismatch, and the `ValueError` of a failed `float()`. -/
inductive ScoreErr : Type where
  | columnCount (found expected : ℕ) (line : String)
  | badFloat (line : String)
deriving DecidableEq

/-- One data row of `extract_scores_from_scorefile`: each field is paired
positionally with its score term (`score_terms[j]`), converted to float if
the term is in `as_float`, and appended to the term's distribution. -/
def scoreRow (as_float : List String) :
    List (String × String) → List (String × List ScoreValue) →
    Option (List (String × List ScoreValue))
  | [], scores => some scores
  | (f, t) :: rest, scores =>
    if t ∈ as_float then
      match parsePyFloat f with
      | some x => scoreRow as_float rest (dictAppendVal scores t (ScoreValue.flt x))
      | none => none
    else scoreRow as_float rest (dictAppendVal scores t (ScoreValue.txt f))

/-- The per-line loop of `extract_scores_from_scorefile`: skip non-`hit`
lines, fail on a field count different from `len(scores.keys())`, otherwise
convert and append the row's fields. -/
def scoreLoop (hit : String) (score_terms : List String)
    (as_float : List String) :
    List String → List (String × List ScoreValue) →
    Except ScoreErr (List (String × List ScoreValue))
  | [], scores => Except.ok scores
  | l :: rest, scores =>
    if pyTake l hit.length = hit then
      let fields := pyFields (pyReplace l hit "")
      if fields.length = scores.length then
        match scoreRow as_float (fields.zip score_terms) scores with
        | some scores2 => scoreLoop hit score_terms as_float rest scores2
        | none => Except.error (ScoreErr.badFloat l)
      else Except.error (ScoreErr.columnCount fields.length scores.length l)
    else scoreLoop hit score_terms as_float rest scores

/-- `extract_scores_from_scorefile` (rosetta_feature_generation.py, lines
256-286) over the list of lines of the scorefile.  The header line gives the
score terms; every later line starting with `hit` must split into exactly
`len(scores.keys())` fields, which are appended per term (floats for terms
in `as_float`).  (Python would raise `IndexError` were `header` out of
range; the claims about this parser all concern in-range headers.) -/
def extract_scores_from_scorefile (lines : List String) (header : ℕ)
    (hit : String) (as_float : List String) :
    Except ScoreErr (List (String × List ScoreValue)) :=
  let score_terms := pyFields (pyReplace (lines.getD header "") hit "")
  let scores := dictFromKeys score_terms ([] : List ScoreValue)
  scoreLoop hit score_terms as_float (lines.drop (header + 1)) scores

/-- `extract_quartile_score_terms_from_scorefiles`
(rosetta_feature_generation.py, lines 354-378), with both distributions
already loaded as tables (the `isinstance(..., str)` branch is file I/O),
the configured quartile set as an ordered list of `(label, quantile)` pairs
(a Python dict iteration), and the term set (`ROSETTA_TERMS_TO_COMPARE`
from the absent settings module) as a parameter.  For every term and
quartile it stores under the key `'quartile_' + term + label` the quantile,
on the native distribution, of the variant distribution's value at that
quantile. -/
def extract_quartile_score_terms_from_scorefiles
    (variant_distribution native_distribution : String → List ℚ)
    (quartiles : List (String × ℚ)) (terms : List String) :
    List (String × Option ℚ) :=
  terms.foldl
    (fun acc term =>
      quartiles.foldl
        (fun acc2 lq =>
          dictUpsert acc2 ("quartile_" ++ term ++ lq.1)
            (determine_quartile_from_quartile_value_of_another_distribution
              lq.2 (variant_distribution term) (native_distribution term)))
        acc)
    []

/-- The residue-collection loop of `extract_protein_sequence_from_pdb`:
walk the ATOM records of the target chain; consecutive records with the same
raw residue label (`i[22:27].strip()`, tracked in `last_resi`, initially
`None`) contribute one sequence letter (`AMINO_ACID_CODES[i[17:20]]`) and
one residue label.  Returns (sequence letters, residue labels), both in
document order. -/
def pdbLoop (aa_codes : String → Char) (target_chain : String) :
    List String → Option String → List Char × List String
  | [], _ => ([], [])
  | i :: rest, last_resi =>
    if pySlice i 21 22 = target_chain then
      let resi := pyStrip (pySlice i 22 27)
      if some resi = last_resi then pdbLoop aa_codes target_chain rest last_resi
      else
        let next := pdbLoop aa_codes target_chain rest (some resi)
        (aa_codes (pySlice i 17 20) :: next.1, resi :: next.2)
    else pdbLoop aa_codes target_chain rest last_resi

/-- `extract_protein_sequence_from_pdb` (psiblast_feature_generation.py,
lines 29-99), core parsing only: the FASTA and numbering-map file writes are
I/O, and `aa_codes` stands for the `AMINO_ACID_CODES` table imported from
the absent settings module.  Keeps only lines with `i[:4] == 'ATOM'`,
collapses consecutive same-label records, and converts the residue list to
the Numbering Map `dict([(residues[i], i) for i in xrange(len(residues))])`. -/
def extract_protein_sequence_from_pdb (lines : List String)
    (target_chain : String) (aa_codes : String → Char) :
    String × List (String × ℕ) :=
  let atom_lines := lines.filter (fun i => pyTake i 4 = "ATOM")
  let collected := pdbLoop aa_codes target_chain atom_lines none
  (String.mk collected.1,
    (collected.2.zip (List.range collected.2.length)).foldl
      (fun acc p => dictUpsert acc p.1 p.2) [])

/-- Concrete coordinate lines for the spec's Sequence Extractor example:
chain-A residues 10, 10 (duplicate atom), 11, and chain-B residue 5, plus a
non-ATOM record.  Columns follow the fixed PDB layout (record name 0-3,
residue name 17-19, chain 21, residue label 22-26). -/
def pdbExampleLines : List String :=
  ["ATOM             ALA A  10 ", "ATOM             ALA A  10 ", "ATOM             ALA A  11 ", "ATOM             GLY B   5 ", "TER"]

/-- Coordinate lines where the residue label 10 recurs NON-consecutively on
chain A (10, 11, 10). -/
def pdbDupLines : List String :=
  ["ATOM             ALA A  10 ", "ATOM             ALA A  11 ", "ATOM             ALA A  10 "]

/-- A small residue-code table for the examples (`AMINO_ACID_CODES` itself
lives in the absent settings module). -/
def pdbExampleCodes : String → Char := fun s =>
  if s = "ALA" then 'A' else if s = "GLY" then 'G' else 'X'

/-- One step of the tokenizer of `extract_pssm_from_psiblast_pssm`: the
state machine equivalent of `re.compile('( +-?|-)').split(line)`.  State:
(pieces so far, reversed; current piece, reversed; inside a space-run
separator?).  Pieces alternate text, separator, text, ...; a separator is a
run of spaces optionally closed by a minus sign, or a bare minus sign. -/
def tokStep (st : List String × List Char × Bool) (c : Char) :
    List String × List Char × Bool :=
  if st.2.2 then
    if c = ' ' then (st.1, c :: st.2.1, true)
    else if c = '-' then (String.mk (c :: st.2.1).reverse :: st.1, [], false)
    else (String.mk st.2.1.reverse :: st.1, [c], false)
  else
    if c = ' ' then (String.mk st.2.1.reverse :: st.1, [c], true)
    else if c = '-' then ("-" :: String.mk st.2.1.reverse :: st.1, [], false)
    else (st.1, c :: st.2.1, false)

/-- `re.compile('( +-?|-)').split(line)`: the alternating text/separator
pieces (first and last pieces are text, possibly empty). -/
def rePieces (s : String) : List String :=
  let st := s.toList.foldl tokStep ([], [], false)
  (if st.2.2 then "" :: String.mk st.2.1.reverse :: st.1
   else String.mk st.2.1.reverse :: st.1).reverse

/-- `l[::2]`. -/
def evens {α : Type} : List α → List α
  | [] => []
  | [a] => [a]
  | a :: _ :: rest => a :: evens rest

/-- `[sep[-1] + dat for sep, dat in zip(ff[::2], ff[1::2])]`: `none` models
the `IndexError` of `sep[-1]` on an empty piece (possible only on lines
that do not start with a separator). -/
def restoreFields : List (String × String) → Option (List String)
  | [] => some []
  | p :: rest =>
    match p.1.toList.getLast?, restoreFields rest with
    | some c, some acc => some (String.mk (c :: p.2.toList) :: acc)
    | _, _ => none

/-- Tokenize one PSSM line: split on the separator pattern, drop the
leading empty piece if the line starts with a separator, and re-attach each
separator's trailing character (a space or a recovered minus sign) to the
following field. -/
def splitPssmLine (s : String) : Option (List String) :=
  let ps0 := rePieces s
  let ps := if ps0.getD 0 "" = "" then ps0.tail else ps0
  restoreFields ((evens ps).zip (evens ps.tail))

/-- Tokenize every line; `none` if any line crashes the tokenizer. -/
def splitAllLines : List String → Option (List (List String))
  | [] => some []
  | l :: rest =>
    match splitPssmLine l, splitAllLines rest with
    | some ff, some rest2 => some (ff :: rest2)
    | _, _ => none

/-- `max(...)` over field counts (the input is non-empty at the call
site; Python `max` on an empty sequence raises, handled separately). -/
def maxNat (l : List ℕ) : ℕ := l.foldr max 0

/-- `int(v)` over a list of fields. -/
def parseIntList : List String → Option (List ℤ)
  | [] => some []
  | s :: rest =>
    match parsePyInt s, parseIntList rest with
    | some v, some vs => some (v :: vs)
    | _, _ => none

/-- `float(v)` over a list of fields. -/
def parseFloatList : List String → Option (List ℚ)
  | [] => some []
  | s :: rest =>
    match parsePyFloat s, parseFloatList rest with
    | some v, some vs => some (v :: vs)
    | _, _ => none

/-- `dict(pairs)`: later pairs overwrite earlier ones with the same key. -/
def dictOfPairs {α β : Type} [DecidableEq α] (ps : List (α × β)) :
    List (α × β) :=
  ps.foldl (fun acc p => dictUpsert acc p.1 p.2) []

/-- `float(v)/100` in exact arithmetic: `v.num / (v.den * 100)`. -/
def qdiv100 (v : ℚ) : ℚ := mkRat v.num (v.den * 100)

/-- One Position Entry of the PSSM Record (the keys of the Python per-line
dict become fields; `extra` is the undocumented `'?'` field). -/
structure PssmEntry : Type where
  position : ℤ
  query_identity : String
  log_likelihood : List (String × ℤ)
  approximate_frequencies : List (String × ℚ)
  information_content : ℚ
  extra : ℚ
deriving DecidableEq

/-- Failures of `extract_pssm_from_psiblast_pssm`: tokenizer `IndexError`,
`max([])` on no lines, the three header `assert`s, and `int()`/`float()`
`ValueError`s on a data line. -/
inductive PssmErr : Type where
  | tokenizeCrash
  | noLines
  | ambiguousHeader (count : ℕ)
  | oddHeader
  | wrongAlphabet (num_aa columns : ℕ)
  | pairMismatch
  | badNumber (field : String)
deriving DecidableEq

/-- Build the Position Entry of one data line `ff` (field count = maximum):
`pos = int(ff[0])`, query identity `ff[1]`, the next `num_aa` fields as
integer log-likelihoods and the following `num_aa` fields as frequencies
(each `float(v)/100`), both keyed by the stripped first-half header letters,
then `float(ff[-2])` and `float(ff[-1])`.  `none` models any `ValueError`. -/
def buildPssmEntry (aaFirst : List String) (num_aa : ℕ) (ff : List String) :
    Option PssmEntry :=
  (parsePyInt (ff.getD 0 "")).bind fun pos =>
  (parseIntList ((ff.drop 2).take num_aa)).bind fun lls =>
  (parseFloatList ((ff.drop (2 + num_aa)).take num_aa)).bind fun fqs =>
  (parsePyFloat (ff.getD (ff.length - 2) "")).bind fun info =>
  (parsePyFloat (ff.getD (ff.length - 1) "")).map fun ex =>
  ⟨pos, ff.getD 1 "", dictOfPairs (aaFirst.zip lls),
    dictOfPairs (aaFirst.zip (fqs.map qdiv100)), info, ex⟩

/-- The data loop of `extract_pssm_from_psiblast_pssm`: every tokenized
line whose field count equals the maximum contributes one entry under its
integer position (later lines overwrite earlier ones with the same
position); all other lines are skipped. -/
def pssmData (aaFirst : List String) (num_aa most : ℕ) :
    List (List String) → List (ℤ × PssmEntry) →
    Except PssmErr (List (ℤ × PssmEntry))
  | [], acc => Except.ok acc
  | ff :: rest, acc =>
    if ff.length = most then
      match buildPssmEntry aaFirst num_aa ff with
      | some e => pssmData aaFirst num_aa most rest (dictUpsert acc e.position e)
      | none => Except.error (PssmErr.badNumber (ff.getD 0 ""))
    else pssmData aaFirst num_aa most rest acc

/-- `extract_pssm_from_psiblast_pssm` (psiblast_feature_generation.py,
lines 192-244) over the lines of the PSSM file (`rstrip('\n')` applied).
`columns` is the `len(PROTEIN_LETTERS)` default (20) from the absent
settings module; `aa_line_shift` defaults to -4 in the source.  Tokenize
every line; the unique line with (max field count + shift) fields names the
amino acids, each letter spanning one first-half and one second-half column
with `num_aa = len(aa_line)/2` equal to `columns`; every line with the
maximum field count becomes a Position Entry. -/
def extract_pssm_from_psiblast_pssm (lines : List String)
    (aa_line_shift : ℤ) (columns : ℕ) :
    Except PssmErr (List (ℤ × PssmEntry)) :=
  match splitAllLines lines with
  | none => Except.error PssmErr.tokenizeCrash
  | some split_lines =>
    if split_lines.isEmpty then Except.error PssmErr.noLines
    else
      let most := maxNat (split_lines.map List.length)
      let aa_lines := split_lines.filter
        (fun ff => (ff.length : ℤ) = (most : ℤ) + aa_line_shift)
      if h1 : aa_lines.length = 1 then
        let aa_line := aa_lines.getD 0 []
        let num_aa := aa_line.length / 2
        if num_aa * 2 = aa_line.length then
          if num_aa = columns then
            if (List.range num_aa).all (fun x =>
                pyStrip (aa_line.getD x "") =
                  pyStrip (aa_line.getD (x + num_aa) "")) then
              pssmData ((aa_line.take num_aa).map pyStrip) num_aa most
                split_lines []
            else Except.error PssmErr.pairMismatch
          else Except.error (PssmErr.wrongAlphabet num_aa columns)
        else Except.error PssmErr.oddHeader
      else Except.error (PssmErr.ambiguousHeader aa_lines.length)

/-- A 44-field PSSM data line (position 1, query X, 20 log-likelihoods,
20 frequencies, information content, extra). -/
def pssmDataLine1 : String := " 1 X 0 0 0 0 0 0 0 0 0 0 0 0 0 0 0 0 0 0 0 0 100 0 0 0 0 0 0 0 0 0 0 0 0 0 0 0 0 0 0 0 0.30 1.00"

/-- A second 44-field data line with the same position 1 (query Y). -/
def pssmDataLine1b : String := " 1 Y 0 0 0 0 0 0 0 0 0 0 0 0 0 0 0 0 0 0 0 0 100 0 0 0 0 0 0 0 0 0 0 0 0 0 0 0 0 0 0 0 0.25 1.00"

/-- A 40-field header line whose first-half letters repeat `A` twice (and
drop `Y`), with the second half identical to the first: it passes every
check of the parser although `A` occupies four columns and only 19 distinct
letters appear. -/
def pssmDupHeaderLine : String := " A A C D E F G H I K L M N P Q R S T V W A A C D E F G H I K L M N P Q R S T V W"

/-- A well-formed 40-field header line: 20 distinct letters, each spanning
one first-half and one second-half column. -/
def pssmGoodHeaderLine : String := " A C D E F G H I K L M N P Q R S T V W Y A C D E F G H I K L M N P Q R S T V W Y"

/-- Evaluation helper: `Int.toNat` of a numeral. -/
theorem int_toNat_numeral (n : ℕ) [n.AtLeastTwo] :
    (Int.toNat (no_index (OfNat.ofNat n))) = OfNat.ofNat n := Int.toNat_ofNat n

theorem sortD_length (D : List ℚ) : (sortD D).length = D.length :=
  (List.perm_insertionSort _ D).length_eq

theorem sortD_sorted (D : List ℚ) : List.Sorted (· ≤ ·) (sortD D) :=
  List.sorted_insertionSort _ D

theorem sortD_perm (D : List ℚ) : (sortD D).Perm D := List.perm_insertionSort _ D

theorem sortD_mem {a : ℚ} {D : List ℚ} : a ∈ sortD D ↔ a ∈ D :=
  (sortD_perm D).mem_iff

/-- Adjacent entries of a `≤`-sorted list, through `getD`. -/
theorem getD_le_getD_of_sorted {d : List ℚ} (hs : List.Sorted (· ≤ ·) d)
    {i j : ℕ} (hij : i ≤ j) (hj : j < d.length) : d.getD i 0 ≤ d.getD j 0 := by
  rcases lt_or_eq_of_le hij with hlt | rfl
  · have hi : i < d.length := lt_trans hlt hj
    rw [List.getD_eq_getElem d 0 hi, List.getD_eq_getElem d 0 hj]
    have h := List.pairwise_iff_get.mp hs ⟨i, hi⟩ ⟨j, hj⟩ hlt
    simpa using h
  · exact le_refl _

/-- Strict version for a `<`-pairwise (all-distinct sorted) list. -/
theorem getD_lt_getD_of_pairwise {d : List ℚ} (hs : List.Pairwise (· < ·) d)
    {i j : ℕ} (hij : i < j) (hj : j < d.length) : d.getD i 0 < d.getD j 0 := by
  have hi : i < d.length := lt_trans hij hj
  rw [List.getD_eq_getElem d 0 hi, List.getD_eq_getElem d 0 hj]
  have h := List.pairwise_iff_get.mp hs ⟨i, hi⟩ ⟨j, hj⟩ hij
  simpa using h

/-- The head of the sorted copy is a member of the original list. -/
theorem sortD_getD_mem {D : List ℚ} {i : ℕ} (hi : i < (sortD D).length) :
    (sortD D).getD i 0 ∈ D := by
  rw [List.getD_eq_getElem _ 0 hi]
  exact sortD_mem.mp (List.getElem_mem hi)

/-- The head of the sorted copy bounds every member from below. -/
theorem sortD_getD_zero_le {D : List ℚ} {y : ℚ} (hy : y ∈ D) :
    (sortD D).getD 0 0 ≤ y := by
  obtain ⟨n, hn, rfl⟩ := List.getElem_of_mem (sortD_mem.mpr hy)
  rw [← List.getD_eq_getElem _ 0 hn]
  exact getD_le_getD_of_sorted (sortD_sorted D) (Nat.zero_le n) hn

/-- The last entry of the sorted copy bounds every member from above. -/
theorem le_sortD_getD_last {D : List ℚ} {y : ℚ} (hy : y ∈ D) :
    y ≤ (sortD D).getD ((sortD D).length - 1) 0 := by
  obtain ⟨n, hn, rfl⟩ := List.getElem_of_mem (sortD_mem.mpr hy)
  rw [← List.getD_eq_getElem _ 0 hn]
  have hlen : 0 < (sortD D).length := lt_of_le_of_lt (Nat.zero_le n) hn
  exact getD_le_getD_of_sorted (sortD_sorted D) (by omega) (by omega)

/-- C10: on a one-element distribution, `determine_quartile` always fails
(the final `quartile / total` is a division by `total = len - 1 = 0`,
a `ZeroDivisionError`), while `determine_quartile_value` returns the single
element for every quantile `q`; so `determine_quartile` has the unstated
precondition that the distribution hold at least 2 elements. -/
theorem determine_quartile_one_element_fails (x quartile_value q : ℚ) :
    determine_quartile quartile_value [x] defaultTolerance = none ∧
    determine_quartile_value q [x] defaultTolerance = some x := by
  constructor
  · norm_num [determine_quartile, sortD, List.insertionSort, List.orderedInsert]
  · by_cases h0 : q ≤ 0
    · norm_num [determine_quartile_value, sortD, List.insertionSort,
        List.orderedInsert, h0]
    · by_cases h1 : 1 < q
      · norm_num [determine_quartile_value, sortD, List.insertionSort,
          List.orderedInsert, h0, h1]
      · norm_num [determine_quartile_value, sortD, List.insertionSort,
          List.orderedInsert, h0, h1, defaultTolerance]

theorem sortD_length_ne_zero {D : List ℚ} (hD : D ≠ []) : ¬ (sortD D).length = 0 := by
  rw [sortD_length]
  exact fun h => hD (List.length_eq_zero.mp h)

/-- `determine_quartile_value`, branch `quartile <= 0`. -/
theorem dqv_of_le_zero {q tol : ℚ} {D : List ℚ} (hD : D ≠ []) (hq : q ≤ 0) :
    determine_quartile_value q D tol = some ((sortD D).getD 0 0) := by
  simp only [determine_quartile_value]
  rw [if_neg (sortD_length_ne_zero hD), if_pos hq]

/-- `determine_quartile_value`, branch `quartile > 1`. -/
theorem dqv_of_one_lt {q tol : ℚ} {D : List ℚ} (hD : D ≠ []) (h0 : ¬ q ≤ 0)
    (h1 : 1 < q) :
    determine_quartile_value q D tol =
      some ((sortD D).getD ((sortD D).length - 1) 0) := by
  simp only [determine_quartile_value]
  rw [if_neg (sortD_length_ne_zero hD), if_neg h0, if_pos h1]

/-- `determine_quartile_value`, interpolation branch, `remaining < tolerance`. -/
theorem dqv_interior_snap {q tol : ℚ} {D : List ℚ} (hD : D ≠ []) (h0 : ¬ q ≤ 0)
    (h1 : ¬ 1 < q)
    (hrem : q * (((sortD D).length : ℚ) - 1) -
        (⌊q * (((sortD D).length : ℚ) - 1)⌋ : ℚ) < tol) :
    determine_quartile_value q D tol =
      some ((sortD D).getD (⌊q * (((sortD D).length : ℚ) - 1)⌋.toNat) 0) := by
  simp only [determine_quartile_value]
  rw [if_neg (sortD_length_ne_zero hD), if_neg h0, if_neg h1, if_pos hrem]

/-- `determine_quartile_value`, interpolation branch, `remaining >= tolerance`. -/
theorem dqv_interior_interp {q tol : ℚ} {D : List ℚ} (hD : D ≠ []) (h0 : ¬ q ≤ 0)
    (h1 : ¬ 1 < q)
    (hrem : ¬ (q * (((sortD D).length : ℚ) - 1) -
        (⌊q * (((sortD D).length : ℚ) - 1)⌋ : ℚ) < tol)) :
    determine_quartile_value q D tol =
      some ((sortD D).getD (⌊q * (((sortD D).length : ℚ) - 1)⌋.toNat) 0 +
        (q * (((sortD D).length : ℚ) - 1) -
          (⌊q * (((sortD D).length : ℚ) - 1)⌋ : ℚ)) *
        ((sortD D).getD (⌊q * (((sortD D).length : ℚ) - 1)⌋.toNat + 1) 0 -
          (sortD D).getD (⌊q * (((sortD D).length : ℚ) - 1)⌋.toNat) 0)) := by
  simp only [determine_quartile_value]
  rw [if_neg (sortD_length_ne_zero hD), if_neg h0, if_neg h1, if_neg hrem]

theorem total_ne_zero {D : List ℚ} (hn2 : 2 ≤ D.length) :
    (((sortD D).length : ℚ) - 1) ≠ 0 := by
  have h : (2 : ℚ) ≤ ((sortD D).length : ℚ) := by
    rw [sortD_length]
    exact_mod_cast hn2
  intro hc
  nlinarith

/-- `determine_quartile`, branch `quartile_value <= distribution[0]`. -/
theorem dq_below {v tol : ℚ} {D : List ℚ} (hn2 : 2 ≤ D.length)
    (hv : v ≤ (sortD D).getD 0 0) :
    determine_quartile v D tol = some 0 := by
  have hD : D ≠ [] := by intro h; subst h; simp at hn2
  simp only [determine_quartile]
  rw [if_neg (sortD_length_ne_zero hD), if_pos hv, if_neg (total_ne_zero hn2),
    zero_div]

/-- `determine_quartile`, branch `quartile_value >= distribution[-1]`. -/
theorem dq_above {v tol : ℚ} {D : List ℚ} (hn2 : 2 ≤ D.length)
    (h0 : ¬ v ≤ (sortD D).getD 0 0)
    (hv : (sortD D).getD ((sortD D).length - 1) 0 ≤ v) :
    determine_quartile v D tol = some 1 := by
  have hD : D ≠ [] := by intro h; subst h; simp at hn2
  simp only [determine_quartile]
  rw [if_neg (sortD_length_ne_zero hD), if_neg h0, if_pos hv,
    if_neg (total_ne_zero hn2), div_self (total_ne_zero hn2)]

/-- `determine_quartile`, search branch with a within-tolerance match. -/
theorem dq_mid_snap {v tol : ℚ} {D : List ℚ} (hn2 : 2 ≤ D.length)
    (h0 : ¬ v ≤ (sortD D).getD 0 0)
    (h1 : ¬ (sortD D).getD ((sortD D).length - 1) 0 ≤ v)
    (hsnap : pyabs ((sortD D).getD (findGE v (sortD D)) 0 - v) ≤ tol) :
    determine_quartile v D tol =
      some ((findGE v (sortD D) : ℚ) / (((sortD D).length : ℚ) - 1)) := by
  have hD : D ≠ [] := by intro h; subst h; simp at hn2
  simp only [determine_quartile]
  rw [if_neg (sortD_length_ne_zero hD), if_neg h0, if_neg h1, if_pos hsnap,
    if_neg (total_ne_zero hn2)]

/-- `determine_quartile`, search branch with linear interpolation. -/
theorem dq_mid_interp {v tol : ℚ} {D : List ℚ} (hn2 : 2 ≤ D.length)
    (h0 : ¬ v ≤ (sortD D).getD 0 0)
    (h1 : ¬ (sortD D).getD ((sortD D).length - 1) 0 ≤ v)
    (hsnap : ¬ pyabs ((sortD D).getD (findGE v (sortD D)) 0 - v) ≤ tol) :
    determine_quartile v D tol =
      some (((findGE v (sortD D) : ℚ) - 1 +
        (v - (sortD D).getD (findGE v (sortD D) - 1) 0) /
          ((sortD D).getD (findGE v (sortD D)) 0 -
            (sortD D).getD (findGE v (sortD D) - 1) 0)) /
        (((sortD D).length : ℚ) - 1)) := by
  have hD : D ≠ [] := by intro h; subst h; simp at hn2
  simp only [determine_quartile]
  rw [if_neg (sortD_length_ne_zero hD), if_neg h0, if_neg h1, if_neg hsnap,
    if_neg (total_ne_zero hn2)]

/-- Specification of the linear search in `determine_quartile`. -/
theorem findGE_eq {v : ℚ} {d : List ℚ} {j : ℕ} (hj : j < d.length)
    (hbefore : ∀ i < j, d.getD i 0 < v) (hat : v ≤ d.getD j 0) :
    findGE v d = j := by
  induction d generalizing j with
  | nil => simp at hj
  | cons x xs ih =>
    cases j with
    | zero =>
      rw [findGE, if_pos (by simpa using hat)]
    | succ j' =>
      have hx : x < v := by
        have h := hbefore 0 (Nat.succ_pos j')
        simpa using h
      rw [findGE, if_neg (not_le.mpr hx)]
      have h := ih (Nat.lt_of_succ_lt_succ (by simpa using hj))
        (fun i hi => by
          have h2 := hbefore (i + 1) (Nat.succ_lt_succ hi)
          simpa using h2)
        (by simpa using hat)
      omega

/-- C3 (amended): for every non-empty distribution `D` and positive tolerance,
`determine_quartile_value` returns the minimum of `D` for every `q ≤ 0`, the
maximum for every `q > 1`, and exactly the maximum at `q = 1`; and for every
distribution of at least 2 elements, `determine_quartile` returns 0 for any
value at or below the minimum, and returns 1 for any value at or above the
maximum provided that value is strictly above the minimum (the original
claim's "at or above the maximum implies 1" fails on constant distributions,
where the at-or-below-the-minimum branch wins and 0 is returned). -/
theorem quartile_engine_clamps (D : List ℚ) (q v tol : ℚ) (hD : D ≠ [])
    (htol : 0 < tol) :
    (q ≤ 0 → ∃ m, determine_quartile_value q D tol = some m ∧ m ∈ D ∧
      ∀ y ∈ D, m ≤ y) ∧
    (1 < q → ∃ m, determine_quartile_value q D tol = some m ∧ m ∈ D ∧
      ∀ y ∈ D, y ≤ m) ∧
    (q = 1 → ∃ m, determine_quartile_value q D tol = some m ∧ m ∈ D ∧
      ∀ y ∈ D, y ≤ m) ∧
    (2 ≤ D.length →
      ((∀ y ∈ D, v ≤ y) → determine_quartile v D tol = some 0) ∧
      ((∃ y ∈ D, y < v) → (∀ y ∈ D, y ≤ v) →
        determine_quartile v D tol = some 1)) := by
  have hlen0 : 0 < (sortD D).length := by
    rw [sortD_length]
    exact List.length_pos.mpr hD
  refine ⟨?_, ?_, ?_, ?_⟩
  · intro hq
    exact ⟨(sortD D).getD 0 0, dqv_of_le_zero hD hq, sortD_getD_mem hlen0,
      fun y hy => sortD_getD_zero_le hy⟩
  · intro hq
    refine ⟨(sortD D).getD ((sortD D).length - 1) 0,
      dqv_of_one_lt hD (by linarith) hq, sortD_getD_mem (by omega),
      fun y hy => le_sortD_getD_last hy⟩
  · rintro rfl
    have hfl : ⌊(1 : ℚ) * (((sortD D).length : ℚ) - 1)⌋ =
        ((sortD D).length : ℤ) - 1 := by
      have e1 : (1 : ℚ) * (((sortD D).length : ℚ) - 1) =
          ((((sortD D).length : ℤ) - 1 : ℤ) : ℚ) := by push_cast; ring
      rw [e1, Int.floor_intCast]
    have hrem : (1 : ℚ) * (((sortD D).length : ℚ) - 1) -
        (⌊(1 : ℚ) * (((sortD D).length : ℚ) - 1)⌋ : ℚ) < tol := by
      rw [hfl]
      push_cast
      linarith
    have hidx : ⌊(1 : ℚ) * (((sortD D).length : ℚ) - 1)⌋.toNat =
        (sortD D).length - 1 := by
      rw [hfl]
      omega
    refine ⟨(sortD D).getD ((sortD D).length - 1) 0, ?_,
      sortD_getD_mem (by omega), fun y hy => le_sortD_getD_last hy⟩
    rw [dqv_interior_snap hD (by norm_num) (by norm_num) hrem, hidx]
  · intro hn2
    constructor
    · intro hbelow
      exact dq_below hn2 (hbelow _ (sortD_getD_mem hlen0))
    · rintro ⟨y, hy, hyv⟩ habove
      have h0 : ¬ v ≤ (sortD D).getD 0 0 := by
        have := sortD_getD_zero_le hy
        linarith
      exact dq_above hn2 h0 (habove _ (sortD_getD_mem (by omega)))

/-- Witness for C3's theorem at `D = [1,2]`, `q = 1`, `v = 5`. -/
theorem quartile_engine_clamps_witness :
    determine_quartile 5 [1, 2] defaultTolerance = some 1 := by
  have h := quartile_engine_clamps [1, 2] 1 5 defaultTolerance (by decide)
    (by norm_num [defaultTolerance])
  exact (h.2.2.2 (by decide)).2 ⟨1, by decide, by norm_num⟩ (by decide)

/-- C3 as stated is false at the constant distribution `[5,5]`: the value 5 is
at or above the maximum, so the claim requires quantile 1, but
`determine_quartile` returns 0 (its at-or-below-the-minimum branch fires
first). -/
theorem quartile_engine_clamps_counterexample :
    (∀ y ∈ ([5, 5] : List ℚ), y ≤ 5) ∧
    determine_quartile 5 [5, 5] defaultTolerance = some 0 ∧
    determine_quartile 5 [5, 5] defaultTolerance ≠ some 1 := by
  refine ⟨by decide, ?_, ?_⟩ <;>
    norm_num [determine_quartile, sortD, List.insertionSort, List.orderedInsert]

/-- C9 (amended): the two quantile operations are not pure on their
`distribution` argument: each sorts the caller's list in place. After either
call the caller's list is exactly `sortD distribution` - the same elements
(a permutation, so the same multiset) in ascending order - and an input that
is already sorted ascending is left unchanged. -/
theorem quartile_engine_sorts_in_place (q v tol : ℚ) (D : List ℚ) :
    (determine_quartile_value_state q D tol).2 = sortD D ∧
    (determine_quartile_state v D tol).2 = sortD D ∧
    (sortD D).Perm D ∧
    (List.Sorted (· ≤ ·) D → (determine_quartile_value_state q D tol).2 = D) := by
  refine ⟨rfl, rfl, sortD_perm D, ?_⟩
  intro hs
  exact List.Sorted.insertionSort_eq hs

/-- Witness for C9's theorem: the post-call state of `[2,1]` is `[1,2]`
(a permutation of the input), and a sorted input `[1,2]` is unchanged. -/
theorem quartile_engine_sorts_in_place_witness :
    ((determine_quartile_value_state 0 [2, 1] defaultTolerance).2).Perm [2, 1] ∧
    (determine_quartile_value_state 0 [1, 2] defaultTolerance).2 = [1, 2] := by
  constructor
  · have h := quartile_engine_sorts_in_place 0 0 defaultTolerance [2, 1]
    rw [h.1]
    exact h.2.2.1
  · exact (quartile_engine_sorts_in_place 0 0 defaultTolerance [1, 2]).2.2.2
      (by decide)

/-- C9 as stated is false: `determine_quartile_value` on the unsorted list
`[2,1]` leaves the caller's list reordered to `[1,2]`, not unchanged. -/
theorem quartile_engine_sorts_in_place_counterexample :
    (determine_quartile_value_state (1/2) [2, 1] defaultTolerance).2 ≠ [2, 1] ∧
    (determine_quartile_state (1/2) [2, 1] defaultTolerance).2 ≠ [2, 1] := by
  constructor <;> decide

theorem pyabs_of_nonneg {x : ℚ} (h : 0 ≤ x) : pyabs x = x := by
  unfold pyabs
  rw [if_neg (not_lt.mpr h)]

theorem pyabs_of_nonpos {x : ℚ} (h : x ≤ 0) : pyabs x = -x := by
  unfold pyabs
  by_cases hx : x < 0
  · rw [if_pos hx]
  · have hx0 : x = 0 := le_antisymm h (not_lt.mp hx)
    rw [if_neg hx, hx0, neg_zero]


/-- C1 (amended): the round trip
`determine_quartile(determine_quartile_value(q, D), D)` is within tolerance of
`q` for every `q` strictly between 0 and 1 and positive tolerance, provided
the distribution's values are pairwise distinct with every adjacent gap of
the sorted values at least `1/(n-1)`.  (The original claim asked only for at
least 2 distinct values; it fails on repeated values and on distinct values
separated by gaps comparable to the tolerance - see the counterexample.) -/
theorem quartile_roundtrip_within_tolerance (D : List ℚ) (q tol : ℚ)
    (hn2 : 2 ≤ D.length)
    (hgap : ∀ i, i + 1 < (sortD D).length →
      1 / (((sortD D).length : ℚ) - 1) ≤ (sortD D).getD (i + 1) 0 - (sortD D).getD i 0)
    (hq0 : 0 < q) (hq1 : q < 1) (htol : 0 < tol) :
    ∃ v out, determine_quartile_value q D tol = some v ∧
      determine_quartile v D tol = some out ∧ pyabs (out - q) ≤ tol := by
  have hD : D ≠ [] := by intro h; subst h; simp at hn2
  have hn : 2 ≤ (sortD D).length := by rw [sortD_length]; exact hn2
  have h2Q : (2 : ℚ) ≤ ((sortD D).length : ℚ) := by exact_mod_cast hn
  have hT1 : (1 : ℚ) ≤ (((sortD D).length : ℚ) - 1) := by linarith
  have hT0 : (0 : ℚ) < (((sortD D).length : ℚ) - 1) := by linarith
  have hsorted := sortD_sorted D
  have hadj : ∀ i, i + 1 < (sortD D).length →
      (sortD D).getD i 0 < (sortD D).getD (i + 1) 0 := by
    intro i hi
    have hg := hgap i hi
    have hpos : 0 < 1 / (((sortD D).length : ℚ) - 1) := by positivity
    linarith
  have hstrict : ∀ i j, i < j → j < (sortD D).length →
      (sortD D).getD i 0 < (sortD D).getD j 0 := by
    intro i j hij hj
    have h1 := hadj i (by omega)
    have h2 := getD_le_getD_of_sorted hsorted (show i + 1 ≤ j by omega) hj
    linarith
  have h0' : ¬ q ≤ 0 := not_le.mpr hq0
  have h1' : ¬ 1 < q := not_lt.mpr (le_of_lt hq1)
  have hbpos : 0 < q * (((sortD D).length : ℚ) - 1) := mul_pos hq0 hT0
  have hblt : q * (((sortD D).length : ℚ) - 1) < (((sortD D).length : ℚ) - 1) := by nlinarith
  have hK0 : 0 ≤ ⌊q * (((sortD D).length : ℚ) - 1)⌋ := Int.floor_nonneg.mpr (le_of_lt hbpos)
  have hKle : ((⌊q * (((sortD D).length : ℚ) - 1)⌋ : ℤ) : ℚ) ≤ q * (((sortD D).length : ℚ) - 1) := Int.floor_le _
  have hKlt : q * (((sortD D).length : ℚ) - 1) < ((⌊q * (((sortD D).length : ℚ) - 1)⌋ : ℤ) : ℚ) + 1 := Int.lt_floor_add_one _
  have hKtop : ⌊q * (((sortD D).length : ℚ) - 1)⌋ < ((sortD D).length : ℤ) - 1 := by
    rw [Int.floor_lt]
    push_cast
    exact hblt
  have hkK : ((⌊q * (((sortD D).length : ℚ) - 1)⌋.toNat : ℕ) : ℤ) = ⌊q * (((sortD D).length : ℚ) - 1)⌋ := Int.toNat_of_nonneg hK0
  have hk1 : ⌊q * (((sortD D).length : ℚ) - 1)⌋.toNat + 1 < (sortD D).length := by omega
  have hkQ : ((⌊q * (((sortD D).length : ℚ) - 1)⌋.toNat : ℕ) : ℚ) = ((⌊q * (((sortD D).length : ℚ) - 1)⌋ : ℤ) : ℚ) := by
    exact_mod_cast congrArg (fun z : ℤ => (z : ℚ)) hkK
  by_cases hrem : q * (((sortD D).length : ℚ) - 1) - ((⌊q * (((sortD D).length : ℚ) - 1)⌋ : ℤ) : ℚ) < tol
  · -- remaining < tolerance: the value snaps to the element at index k
    rcases Nat.eq_zero_or_pos (⌊q * (((sortD D).length : ℚ) - 1)⌋.toNat) with hk0 | hkpos
    · -- k = 0: the value is the minimum, the quantile comes back as 0
      have hdq : determine_quartile ((sortD D).getD (⌊q * (((sortD D).length : ℚ) - 1)⌋.toNat) 0) D tol = some 0 := by
        rw [hk0]
        exact dq_below hn2 (le_refl _)
      have herr : pyabs ((0 : ℚ) - q) ≤ tol := by
        have hq_le : q ≤ q * (((sortD D).length : ℚ) - 1) := by nlinarith
        have hKzero : ⌊q * (((sortD D).length : ℚ) - 1)⌋ = 0 := by omega
        have hbi_lt : q * (((sortD D).length : ℚ) - 1) < tol := by
          rw [hKzero] at hrem
          push_cast at hrem
          linarith
        rw [pyabs_of_nonpos (by linarith)]
        linarith
      exact ⟨_, _, dqv_interior_snap hD h0' h1' hrem, hdq, herr⟩
    · -- k >= 1: the search finds index k exactly; quantile k/(n-1)
      have hkn : ⌊q * (((sortD D).length : ℚ) - 1)⌋.toNat < (sortD D).length := by omega
      have h0'' : ¬ (sortD D).getD (⌊q * (((sortD D).length : ℚ) - 1)⌋.toNat) 0 ≤ (sortD D).getD 0 0 :=
        not_le.mpr (hstrict 0 _ hkpos hkn)
      have h1'' : ¬ (sortD D).getD ((sortD D).length - 1) 0 ≤ (sortD D).getD (⌊q * (((sortD D).length : ℚ) - 1)⌋.toNat) 0 :=
        not_le.mpr (hstrict _ ((sortD D).length - 1) (by omega) (by omega))
      have hfind : findGE ((sortD D).getD (⌊q * (((sortD D).length : ℚ) - 1)⌋.toNat) 0) (sortD D) = ⌊q * (((sortD D).length : ℚ) - 1)⌋.toNat :=
        findGE_eq hkn (fun i hi => hstrict i _ hi hkn) (le_refl _)
      have hsnap : pyabs ((sortD D).getD (findGE ((sortD D).getD (⌊q * (((sortD D).length : ℚ) - 1)⌋.toNat) 0) (sortD D)) 0 - (sortD D).getD (⌊q * (((sortD D).length : ℚ) - 1)⌋.toNat) 0) ≤
          tol := by
        rw [hfind, sub_self, pyabs_of_nonneg (le_refl 0)]
        exact le_of_lt htol
      have hdq : determine_quartile ((sortD D).getD (⌊q * (((sortD D).length : ℚ) - 1)⌋.toNat) 0) D tol =
          some (((⌊q * (((sortD D).length : ℚ) - 1)⌋.toNat : ℕ) : ℚ) / (((sortD D).length : ℚ) - 1)) := by
        rw [dq_mid_snap hn2 h0'' h1'' hsnap, hfind]
      have herr : pyabs (((⌊q * (((sortD D).length : ℚ) - 1)⌋.toNat : ℕ) : ℚ) / (((sortD D).length : ℚ) - 1) - q) ≤ tol := by
        have he : ((⌊q * (((sortD D).length : ℚ) - 1)⌋.toNat : ℕ) : ℚ) / (((sortD D).length : ℚ) - 1) - q = -((q * (((sortD D).length : ℚ) - 1) - ((⌊q * (((sortD D).length : ℚ) - 1)⌋ : ℤ) : ℚ)) / (((sortD D).length : ℚ) - 1)) := by
          rw [hkQ]
          field_simp
          unfold Int.fract
          ring
        have hr0' : 0 ≤ q * (((sortD D).length : ℚ) - 1) - ((⌊q * (((sortD D).length : ℚ) - 1)⌋ : ℤ) : ℚ) := by linarith
        rw [he, pyabs_of_nonpos (neg_nonpos_of_nonneg
          (div_nonneg hr0' (le_of_lt hT0))), neg_neg]
        have hds := div_le_self hr0' hT1
        linarith
      exact ⟨_, _, dqv_interior_snap hD h0' h1' hrem, hdq, herr⟩
  · -- remaining >= tolerance: linear interpolation between indices k and k+1
    have hr0 : 0 ≤ q * (((sortD D).length : ℚ) - 1) - ((⌊q * (((sortD D).length : ℚ) - 1)⌋ : ℤ) : ℚ) := by linarith
    have hrtol : tol ≤ q * (((sortD D).length : ℚ) - 1) - ((⌊q * (((sortD D).length : ℚ) - 1)⌋ : ℤ) : ℚ) := not_lt.mp hrem
    have hrpos : 0 < q * (((sortD D).length : ℚ) - 1) - ((⌊q * (((sortD D).length : ℚ) - 1)⌋ : ℤ) : ℚ) := lt_of_lt_of_le htol hrtol
    have hr1 : q * (((sortD D).length : ℚ) - 1) - ((⌊q * (((sortD D).length : ℚ) - 1)⌋ : ℤ) : ℚ) < 1 := by linarith
    have hgapk := hgap (⌊q * (((sortD D).length : ℚ) - 1)⌋.toNat) hk1
    have hg0 : 0 < (sortD D).getD (⌊q * (((sortD D).length : ℚ) - 1)⌋.toNat + 1) 0 - (sortD D).getD (⌊q * (((sortD D).length : ℚ) - 1)⌋.toNat) 0 := lt_of_lt_of_le (by positivity) hgapk
    have hv1 : (sortD D).getD (⌊q * (((sortD D).length : ℚ) - 1)⌋.toNat) 0 < (sortD D).getD (⌊q * (((sortD D).length : ℚ) - 1)⌋.toNat) 0 + (q * (((sortD D).length : ℚ) - 1) - ((⌊q * (((sortD D).length : ℚ) - 1)⌋ : ℤ) : ℚ)) * ((sortD D).getD (⌊q * (((sortD D).length : ℚ) - 1)⌋.toNat + 1) 0 - (sortD D).getD (⌊q * (((sortD D).length : ℚ) - 1)⌋.toNat) 0) := by nlinarith
    have hv2 : (sortD D).getD (⌊q * (((sortD D).length : ℚ) - 1)⌋.toNat) 0 + (q * (((sortD D).length : ℚ) - 1) - ((⌊q * (((sortD D).length : ℚ) - 1)⌋ : ℤ) : ℚ)) * ((sortD D).getD (⌊q * (((sortD D).length : ℚ) - 1)⌋.toNat + 1) 0 - (sortD D).getD (⌊q * (((sortD D).length : ℚ) - 1)⌋.toNat) 0) < (sortD D).getD (⌊q * (((sortD D).length : ℚ) - 1)⌋.toNat + 1) 0 := by nlinarith
    have h0'' : ¬ (sortD D).getD (⌊q * (((sortD D).length : ℚ) - 1)⌋.toNat) 0 + (q * (((sortD D).length : ℚ) - 1) - ((⌊q * (((sortD D).length : ℚ) - 1)⌋ : ℤ) : ℚ)) * ((sortD D).getD (⌊q * (((sortD D).length : ℚ) - 1)⌋.toNat + 1) 0 - (sortD D).getD (⌊q * (((sortD D).length : ℚ) - 1)⌋.toNat) 0) ≤ (sortD D).getD 0 0 := by
      have hle := getD_le_getD_of_sorted hsorted (Nat.zero_le (⌊q * (((sortD D).length : ℚ) - 1)⌋.toNat)) (by omega)
      exact not_le.mpr (lt_of_le_of_lt hle hv1)
    have h1'' : ¬ (sortD D).getD ((sortD D).length - 1) 0 ≤ (sortD D).getD (⌊q * (((sortD D).length : ℚ) - 1)⌋.toNat) 0 + (q * (((sortD D).length : ℚ) - 1) - ((⌊q * (((sortD D).length : ℚ) - 1)⌋ : ℤ) : ℚ)) * ((sortD D).getD (⌊q * (((sortD D).length : ℚ) - 1)⌋.toNat + 1) 0 - (sortD D).getD (⌊q * (((sortD D).length : ℚ) - 1)⌋.toNat) 0) := by
      have hle := getD_le_getD_of_sorted hsorted
        (show ⌊q * (((sortD D).length : ℚ) - 1)⌋.toNat + 1 ≤ (sortD D).length - 1 by omega) (by omega)
      exact not_le.mpr (lt_of_lt_of_le hv2 hle)
    have hfind : findGE ((sortD D).getD (⌊q * (((sortD D).length : ℚ) - 1)⌋.toNat) 0 + (q * (((sortD D).length : ℚ) - 1) - ((⌊q * (((sortD D).length : ℚ) - 1)⌋ : ℤ) : ℚ)) * ((sortD D).getD (⌊q * (((sortD D).length : ℚ) - 1)⌋.toNat + 1) 0 - (sortD D).getD (⌊q * (((sortD D).length : ℚ) - 1)⌋.toNat) 0)) (sortD D) = ⌊q * (((sortD D).length : ℚ) - 1)⌋.toNat + 1 := by
      refine findGE_eq hk1 ?_ (le_of_lt hv2)
      intro i hi
      have hile := getD_le_getD_of_sorted hsorted
        (show i ≤ ⌊q * (((sortD D).length : ℚ) - 1)⌋.toNat by omega) (by omega)
      exact lt_of_le_of_lt hile hv1
    have hcast : ((⌊q * (((sortD D).length : ℚ) - 1)⌋.toNat + 1 : ℕ) : ℚ) = ((⌊q * (((sortD D).length : ℚ) - 1)⌋ : ℤ) : ℚ) + 1 := by
      push_cast
      rw [hkQ]
    by_cases hsnapB : pyabs ((sortD D).getD (⌊q * (((sortD D).length : ℚ) - 1)⌋.toNat + 1) 0 - ((sortD D).getD (⌊q * (((sortD D).length : ℚ) - 1)⌋.toNat) 0 + (q * (((sortD D).length : ℚ) - 1) - ((⌊q * (((sortD D).length : ℚ) - 1)⌋ : ℤ) : ℚ)) * ((sortD D).getD (⌊q * (((sortD D).length : ℚ) - 1)⌋.toNat + 1) 0 - (sortD D).getD (⌊q * (((sortD D).length : ℚ) - 1)⌋.toNat) 0))) ≤ tol
    · -- the interpolated value is within tolerance of the element above it
      have hdq : determine_quartile ((sortD D).getD (⌊q * (((sortD D).length : ℚ) - 1)⌋.toNat) 0 + (q * (((sortD D).length : ℚ) - 1) - ((⌊q * (((sortD D).length : ℚ) - 1)⌋ : ℤ) : ℚ)) * ((sortD D).getD (⌊q * (((sortD D).length : ℚ) - 1)⌋.toNat + 1) 0 - (sortD D).getD (⌊q * (((sortD D).length : ℚ) - 1)⌋.toNat) 0)) D tol =
          some (((⌊q * (((sortD D).length : ℚ) - 1)⌋.toNat + 1 : ℕ) : ℚ) / (((sortD D).length : ℚ) - 1)) := by
        rw [dq_mid_snap hn2 h0'' h1'' (by rw [hfind]; exact hsnapB), hfind]
      have herr : pyabs (((⌊q * (((sortD D).length : ℚ) - 1)⌋.toNat + 1 : ℕ) : ℚ) / (((sortD D).length : ℚ) - 1) - q) ≤ tol := by
        have he : ((⌊q * (((sortD D).length : ℚ) - 1)⌋.toNat + 1 : ℕ) : ℚ) / (((sortD D).length : ℚ) - 1) - q = (1 - (q * (((sortD D).length : ℚ) - 1) - ((⌊q * (((sortD D).length : ℚ) - 1)⌋ : ℤ) : ℚ))) / (((sortD D).length : ℚ) - 1) := by
          rw [hcast]
          field_simp
          unfold Int.fract
          ring
        have h1r : (0 : ℚ) ≤ 1 - (q * (((sortD D).length : ℚ) - 1) - ((⌊q * (((sortD D).length : ℚ) - 1)⌋ : ℤ) : ℚ)) := by linarith
        rw [he, pyabs_of_nonneg (div_nonneg h1r (le_of_lt hT0))]
        have hgv : (sortD D).getD (⌊q * (((sortD D).length : ℚ) - 1)⌋.toNat + 1) 0 - ((sortD D).getD (⌊q * (((sortD D).length : ℚ) - 1)⌋.toNat) 0 + (q * (((sortD D).length : ℚ) - 1) - ((⌊q * (((sortD D).length : ℚ) - 1)⌋ : ℤ) : ℚ)) * ((sortD D).getD (⌊q * (((sortD D).length : ℚ) - 1)⌋.toNat + 1) 0 - (sortD D).getD (⌊q * (((sortD D).length : ℚ) - 1)⌋.toNat) 0)) = (1 - (q * (((sortD D).length : ℚ) - 1) - ((⌊q * (((sortD D).length : ℚ) - 1)⌋ : ℤ) : ℚ))) * ((sortD D).getD (⌊q * (((sortD D).length : ℚ) - 1)⌋.toNat + 1) 0 - (sortD D).getD (⌊q * (((sortD D).length : ℚ) - 1)⌋.toNat) 0) := by ring
        rw [hgv, pyabs_of_nonneg (mul_nonneg h1r (le_of_lt hg0))] at hsnapB
        have step : (1 - (q * (((sortD D).length : ℚ) - 1) - ((⌊q * (((sortD D).length : ℚ) - 1)⌋ : ℤ) : ℚ))) * (1 / (((sortD D).length : ℚ) - 1)) ≤ (1 - (q * (((sortD D).length : ℚ) - 1) - ((⌊q * (((sortD D).length : ℚ) - 1)⌋ : ℤ) : ℚ))) * ((sortD D).getD (⌊q * (((sortD D).length : ℚ) - 1)⌋.toNat + 1) 0 - (sortD D).getD (⌊q * (((sortD D).length : ℚ) - 1)⌋.toNat) 0) :=
          mul_le_mul_of_nonneg_left hgapk h1r
        have hexp : (1 - (q * (((sortD D).length : ℚ) - 1) - ((⌊q * (((sortD D).length : ℚ) - 1)⌋ : ℤ) : ℚ))) / (((sortD D).length : ℚ) - 1) = (1 - (q * (((sortD D).length : ℚ) - 1) - ((⌊q * (((sortD D).length : ℚ) - 1)⌋ : ℤ) : ℚ))) * (1 / (((sortD D).length : ℚ) - 1)) := by
          ring
        linarith
      exact ⟨_, _, dqv_interior_interp hD h0' h1' hrem, hdq, herr⟩
    · -- no snap: the interpolation inverts exactly and the result is q itself
      have hdq : determine_quartile ((sortD D).getD (⌊q * (((sortD D).length : ℚ) - 1)⌋.toNat) 0 + (q * (((sortD D).length : ℚ) - 1) - ((⌊q * (((sortD D).length : ℚ) - 1)⌋ : ℤ) : ℚ)) * ((sortD D).getD (⌊q * (((sortD D).length : ℚ) - 1)⌋.toNat + 1) 0 - (sortD D).getD (⌊q * (((sortD D).length : ℚ) - 1)⌋.toNat) 0)) D tol =
          some ((((⌊q * (((sortD D).length : ℚ) - 1)⌋.toNat + 1 : ℕ) : ℚ) - 1 +
            ((sortD D).getD (⌊q * (((sortD D).length : ℚ) - 1)⌋.toNat) 0 + (q * (((sortD D).length : ℚ) - 1) - ((⌊q * (((sortD D).length : ℚ) - 1)⌋ : ℤ) : ℚ)) * ((sortD D).getD (⌊q * (((sortD D).length : ℚ) - 1)⌋.toNat + 1) 0 - (sortD D).getD (⌊q * (((sortD D).length : ℚ) - 1)⌋.toNat) 0) - (sortD D).getD (⌊q * (((sortD D).length : ℚ) - 1)⌋.toNat) 0) / ((sortD D).getD (⌊q * (((sortD D).length : ℚ) - 1)⌋.toNat + 1) 0 - (sortD D).getD (⌊q * (((sortD D).length : ℚ) - 1)⌋.toNat) 0)) / (((sortD D).length : ℚ) - 1)) := by
        rw [dq_mid_interp hn2 h0'' h1'' (by rw [hfind]; exact hsnapB), hfind,
          Nat.add_sub_cancel]
      have herr : pyabs ((((⌊q * (((sortD D).length : ℚ) - 1)⌋.toNat + 1 : ℕ) : ℚ) - 1 +
          ((sortD D).getD (⌊q * (((sortD D).length : ℚ) - 1)⌋.toNat) 0 + (q * (((sortD D).length : ℚ) - 1) - ((⌊q * (((sortD D).length : ℚ) - 1)⌋ : ℤ) : ℚ)) * ((sortD D).getD (⌊q * (((sortD D).length : ℚ) - 1)⌋.toNat + 1) 0 - (sortD D).getD (⌊q * (((sortD D).length : ℚ) - 1)⌋.toNat) 0) - (sortD D).getD (⌊q * (((sortD D).length : ℚ) - 1)⌋.toNat) 0) / ((sortD D).getD (⌊q * (((sortD D).length : ℚ) - 1)⌋.toNat + 1) 0 - (sortD D).getD (⌊q * (((sortD D).length : ℚ) - 1)⌋.toNat) 0)) / (((sortD D).length : ℚ) - 1) - q) ≤ tol := by
        have hvsub : (sortD D).getD (⌊q * (((sortD D).length : ℚ) - 1)⌋.toNat) 0 + (q * (((sortD D).length : ℚ) - 1) - ((⌊q * (((sortD D).length : ℚ) - 1)⌋ : ℤ) : ℚ)) * ((sortD D).getD (⌊q * (((sortD D).length : ℚ) - 1)⌋.toNat + 1) 0 - (sortD D).getD (⌊q * (((sortD D).length : ℚ) - 1)⌋.toNat) 0) - (sortD D).getD (⌊q * (((sortD D).length : ℚ) - 1)⌋.toNat) 0 = (q * (((sortD D).length : ℚ) - 1) - ((⌊q * (((sortD D).length : ℚ) - 1)⌋ : ℤ) : ℚ)) * ((sortD D).getD (⌊q * (((sortD D).length : ℚ) - 1)⌋.toNat + 1) 0 - (sortD D).getD (⌊q * (((sortD D).length : ℚ) - 1)⌋.toNat) 0) := by ring
        have hdivr : ((sortD D).getD (⌊q * (((sortD D).length : ℚ) - 1)⌋.toNat) 0 + (q * (((sortD D).length : ℚ) - 1) - ((⌊q * (((sortD D).length : ℚ) - 1)⌋ : ℤ) : ℚ)) * ((sortD D).getD (⌊q * (((sortD D).length : ℚ) - 1)⌋.toNat + 1) 0 - (sortD D).getD (⌊q * (((sortD D).length : ℚ) - 1)⌋.toNat) 0) - (sortD D).getD (⌊q * (((sortD D).length : ℚ) - 1)⌋.toNat) 0) / ((sortD D).getD (⌊q * (((sortD D).length : ℚ) - 1)⌋.toNat + 1) 0 - (sortD D).getD (⌊q * (((sortD D).length : ℚ) - 1)⌋.toNat) 0) = q * (((sortD D).length : ℚ) - 1) - ((⌊q * (((sortD D).length : ℚ) - 1)⌋ : ℤ) : ℚ) := by
          rw [hvsub]
          exact mul_div_cancel_right₀ _ (ne_of_gt hg0)
        have hout : (((⌊q * (((sortD D).length : ℚ) - 1)⌋.toNat + 1 : ℕ) : ℚ) - 1 +
            ((sortD D).getD (⌊q * (((sortD D).length : ℚ) - 1)⌋.toNat) 0 + (q * (((sortD D).length : ℚ) - 1) - ((⌊q * (((sortD D).length : ℚ) - 1)⌋ : ℤ) : ℚ)) * ((sortD D).getD (⌊q * (((sortD D).length : ℚ) - 1)⌋.toNat + 1) 0 - (sortD D).getD (⌊q * (((sortD D).length : ℚ) - 1)⌋.toNat) 0) - (sortD D).getD (⌊q * (((sortD D).length : ℚ) - 1)⌋.toNat) 0) / ((sortD D).getD (⌊q * (((sortD D).length : ℚ) - 1)⌋.toNat + 1) 0 - (sortD D).getD (⌊q * (((sortD D).length : ℚ) - 1)⌋.toNat) 0)) / (((sortD D).length : ℚ) - 1) - q = 0 := by
          rw [hdivr, hcast]
          field_simp
        rw [hout, pyabs_of_nonneg (le_refl 0)]
        exact le_of_lt htol
      exact ⟨_, _, dqv_interior_interp hD h0' h1' hrem, hdq, herr⟩

/-- Witness for C1's theorem at `D = [0,1,2]`, `q = 1/3` (unit gaps,
`1/(n-1) = 1/2`). -/
theorem quartile_roundtrip_within_tolerance_witness :
    ∃ v out, determine_quartile_value (1/3) [0, 1, 2] defaultTolerance = some v ∧
      determine_quartile v [0, 1, 2] defaultTolerance = some out ∧
      pyabs (out - 1/3) ≤ defaultTolerance := by
  refine quartile_roundtrip_within_tolerance [0, 1, 2] (1/3) defaultTolerance
    (by norm_num) ?_ (by norm_num) (by norm_num) (by norm_num [defaultTolerance])
  intro i hi
  have hs : sortD [0, 1, 2] = [0, 1, 2] := by
    norm_num [sortD, List.insertionSort, List.orderedInsert]
  rw [hs] at hi ⊢
  norm_num at hi
  rcases (by omega : i = 0 ∨ i = 1) with rfl | rfl <;>
    norm_num [List.getD_cons_zero, List.getD_cons_succ]

/-- C1 as stated is false: `[0,0,1]` has two distinct values and `q = 1/2` is
strictly between 0 and 1, yet the round trip returns quantile 0, which is off
from `1/2` by far more than the 1e-7 tolerance (the median value of `[0,0,1]`
is the duplicated 0, which `determine_quartile` ranks at or below the
minimum). -/
theorem quartile_roundtrip_counterexample :
    ((determine_quartile_value (1/2) [0, 0, 1] defaultTolerance).bind
      (fun v => determine_quartile v [0, 0, 1] defaultTolerance)) = some 0 ∧
    ¬ pyabs ((0 : ℚ) - 1/2) ≤ defaultTolerance := by
  constructor
  · norm_num [determine_quartile, determine_quartile_value, sortD,
      defaultTolerance, List.insertionSort, List.orderedInsert, findGE, pyabs,
      int_toNat_numeral, List.getD_cons_zero, List.getD_cons_succ]
  · norm_num [pyabs, defaultTolerance]

theorem dictAppendVal_length {α β : Type} [DecidableEq α]
    (l : List (α × List β)) (k : α) (v : β) :
    (dictAppendVal l k v).length = l.length := by
  induction l with
  | nil => rfl
  | cons p t ih =>
    obtain ⟨k', vs⟩ := p
    simp only [dictAppendVal]
    split <;> simp [ih]

theorem scoreRow_length {af : List String} :
    ∀ (ps : List (String × String)) (sc sc2 : List (String × List ScoreValue)),
    scoreRow af ps sc = some sc2 → sc2.length = sc.length := by
  intro ps
  induction ps with
  | nil =>
    intro sc sc2 h
    cases h
    rfl
  | cons p rest ih =>
    intro sc sc2 h
    obtain ⟨f, t⟩ := p
    simp only [scoreRow] at h
    by_cases hm : t ∈ af
    · rw [if_pos hm] at h
      cases hpf : parsePyFloat f with
      | none =>
        rw [hpf] at h
        cases h
      | some x =>
        rw [hpf] at h
        have h2 := ih _ _ h
        rw [h2, dictAppendVal_length]
    · rw [if_neg hm] at h
      have h2 := ih _ _ h
      rw [h2, dictAppendVal_length]

theorem scoreRow_isSome_of_floats {af : List String} :
    ∀ (ps : List (String × String)) (sc : List (String × List ScoreValue)),
    (∀ p ∈ ps, p.2 ∈ af → (parsePyFloat p.1).isSome) →
    ∃ sc2, scoreRow af ps sc = some sc2 := by
  intro ps
  induction ps with
  | nil =>
    intro sc _
    exact ⟨sc, rfl⟩
  | cons p rest ih =>
    intro sc hall
    obtain ⟨f, t⟩ := p
    by_cases hm : t ∈ af
    · have hsome := hall (f, t) (List.mem_cons_self _ _) hm
      cases hpf : parsePyFloat f with
      | none =>
        rw [hpf] at hsome
        simp at hsome
      | some x =>
        obtain ⟨sc2, h2⟩ := ih (dictAppendVal sc t (ScoreValue.flt x))
          (fun p hp => hall p (List.mem_cons_of_mem _ hp))
        refine ⟨sc2, ?_⟩
        simp only [scoreRow, if_pos hm, hpf]
        exact h2
    · obtain ⟨sc2, h2⟩ := ih (dictAppendVal sc t (ScoreValue.txt f))
        (fun p hp => hall p (List.mem_cons_of_mem _ hp))
      refine ⟨sc2, ?_⟩
      simp only [scoreRow, if_neg hm]
      exact h2

theorem scoreLoop_bad {hit : String} {ts af : List String} :
    ∀ (rest : List String) (scores : List (String × List ScoreValue)),
    (∃ l ∈ rest, pyTake l hit.length = hit ∧
      (pyFields (pyReplace l hit "")).length ≠ scores.length) →
    (scoreLoop hit ts af rest scores).isOk = false ∧
    ((∀ l ∈ rest, pyTake l hit.length = hit →
        ∀ p ∈ (pyFields (pyReplace l hit "")).zip ts, p.2 ∈ af →
          (parsePyFloat p.1).isSome) →
      ∃ found ln, scoreLoop hit ts af rest scores =
        Except.error (ScoreErr.columnCount found scores.length ln)) := by
  intro rest
  induction rest with
  | nil =>
    intro scores h
    simp at h
  | cons l rest ih =>
    intro scores hbad
    by_cases hl : pyTake l hit.length = hit
    · by_cases hc : (pyFields (pyReplace l hit "")).length = scores.length
      · have hbad' : ∃ l2 ∈ rest, pyTake l2 hit.length = hit ∧
            (pyFields (pyReplace l2 hit "")).length ≠ scores.length := by
          obtain ⟨l2, hmem, hh, hne⟩ := hbad
          rcases List.mem_cons.mp hmem with rfl | hmem2
          · exact absurd hc hne
          · exact ⟨l2, hmem2, hh, hne⟩
        cases hrow : scoreRow af ((pyFields (pyReplace l hit "")).zip ts)
            scores with
        | none =>
          constructor
          · simp only [scoreLoop, if_pos hl, if_pos hc, hrow]
            rfl
          · intro hgood
            obtain ⟨sc2, h2⟩ := scoreRow_isSome_of_floats _ scores
              (hgood l (List.mem_cons_self _ _) hl)
            rw [hrow] at h2
            cases h2
        | some sc2 =>
          have hlen := scoreRow_length _ _ _ hrow
          have hbad2 : ∃ l2 ∈ rest, pyTake l2 hit.length = hit ∧
              (pyFields (pyReplace l2 hit "")).length ≠ sc2.length := by
            rw [hlen]
            exact hbad'
          obtain ⟨ih1, ih2⟩ := ih sc2 hbad2
          constructor
          · simp only [scoreLoop, if_pos hl, if_pos hc, hrow]
            exact ih1
          · intro hgood
            obtain ⟨found, ln, hout⟩ :=
              ih2 (fun l2 hm => hgood l2 (List.mem_cons_of_mem _ hm))
            refine ⟨found, ln, ?_⟩
            simp only [scoreLoop, if_pos hl, if_pos hc, hrow]
            rw [hout, hlen]
      · constructor
        · simp only [scoreLoop, if_pos hl, if_neg hc]
          rfl
        · intro _
          exact ⟨(pyFields (pyReplace l hit "")).length, l,
            by simp only [scoreLoop, if_pos hl, if_neg hc]⟩
    · have hbad' : ∃ l2 ∈ rest, pyTake l2 hit.length = hit ∧
          (pyFields (pyReplace l2 hit "")).length ≠ scores.length := by
        obtain ⟨l2, hmem, hh, hne⟩ := hbad
        rcases List.mem_cons.mp hmem with rfl | hmem2
        · exact absurd hh hl
        · exact ⟨l2, hmem2, hh, hne⟩
      obtain ⟨ih1, ih2⟩ := ih scores hbad'
      constructor
      · simp only [scoreLoop, if_neg hl]
        exact ih1
      · intro hgood
        obtain ⟨found, ln, hout⟩ :=
          ih2 (fun l2 hm => hgood l2 (List.mem_cons_of_mem _ hm))
        refine ⟨found, ln, ?_⟩
        simp only [scoreLoop, if_neg hl]
        exact hout

/-- C4 (amended): every line after the header that starts with the row
marker and whose field count differs from the number of DISTINCT header term
names (`len(scores.keys())`, which equals the header term count whenever the
header names are distinct) makes `extract_scores_from_scorefile` fail rather
than return a result; when in addition every well-formed row's numeric
fields parse, the failure is precisely the column-count error.  (The
original claim, phrased with the raw header term count, fails on headers
with duplicate term names - see the counterexample.) -/
theorem score_parser_column_mismatch_fails (lines : List String) (header : ℕ)
    (hit : String) (as_float : List String)
    (hheader : header < lines.length)
    (hbad : ∃ l ∈ lines.drop (header + 1), pyTake l hit.length = hit ∧
      (pyFields (pyReplace l hit "")).length ≠
        (dictFromKeys (pyFields (pyReplace (lines.getD header "") hit ""))
          ([] : List ScoreValue)).length) :
    (extract_scores_from_scorefile lines header hit as_float).isOk = false ∧
    ((∀ l ∈ lines.drop (header + 1), pyTake l hit.length = hit →
        ∀ p ∈ (pyFields (pyReplace l hit "")).zip
          (pyFields (pyReplace (lines.getD header "") hit "")),
          p.2 ∈ as_float → (parsePyFloat p.1).isSome) →
      ∃ found ln, extract_scores_from_scorefile lines header hit as_float =
        Except.error (ScoreErr.columnCount found
          (dictFromKeys (pyFields (pyReplace (lines.getD header "") hit ""))
            ([] : List ScoreValue)).length ln)) := by
  simp only [extract_scores_from_scorefile]
  exact scoreLoop_bad _ _ hbad

/-- Witness for C4's theorem: header `SCORE: a b` (2 distinct terms), data
row `SCORE: 1` with a single field. -/
theorem score_parser_column_mismatch_fails_witness :
    (extract_scores_from_scorefile ["SCORE: a b", "SCORE: 1"] 0 "SCORE: "
      []).isOk = false ∧
    ∃ found ln, extract_scores_from_scorefile ["SCORE: a b", "SCORE: 1"] 0
      "SCORE: " [] = Except.error (ScoreErr.columnCount found 2 ln) := by
  have h := score_parser_column_mismatch_fails ["SCORE: a b", "SCORE: 1"] 0
    "SCORE: " [] (by decide) (by decide)
  refine ⟨h.1, ?_⟩
  have h2 := h.2 (by decide)
  have hlen : (dictFromKeys (pyFields (pyReplace
      (["SCORE: a b", "SCORE: 1"].getD 0 "") "SCORE: " ""))
      ([] : List ScoreValue)).length = 2 := by decide
  rw [hlen] at h2
  exact h2

/-- C4 as stated is false on a header with duplicate term names: the header
`SCORE: a a` has 2 term names, the data row `SCORE: 5` has 1 field
(different from 2), yet the parser succeeds, because the code compares the
field count against `len(scores.keys())` = 1 distinct key. -/
theorem score_parser_column_mismatch_counterexample :
    (pyFields (pyReplace "SCORE: a a" "SCORE: " "")).length = 2 ∧
    (pyFields (pyReplace "SCORE: 5" "SCORE: " "")).length = 1 ∧
    pyTake "SCORE: 5" ("SCORE: ").length = "SCORE: " ∧
    (extract_scores_from_scorefile ["SCORE: a a", "SCORE: 5"] 0 "SCORE: "
      []).isOk = true := by
  refine ⟨by decide, by decide, by decide, by decide⟩

/-- C5 (amended): with header `SCORE: total_score rms` and data rows that
carry exactly one field per header term - `SCORE: -12.3 0.5` and
`SCORE: -10.1 0.4` - and numeric term set {total_score, rms}, the parser
returns {total_score: [-12.3, -10.1], rms: [0.5, 0.4]}, converting exactly
the fields whose term is in the numeric set and keeping row order.  (The
claim's original rows carry a leading id field, giving 3 fields against 2
header terms: on those rows the parser raises its column-count error
instead of returning this table - see the counterexample.) -/
theorem score_parser_example :
    extract_scores_from_scorefile
      ["SCORE: total_score rms", "SCORE: -12.3 0.5", "SCORE: -10.1 0.4"] 0
      "SCORE: " ["total_score", "rms"] =
    Except.ok [("total_score",
        [ScoreValue.flt (mkRat (-123) 10), ScoreValue.flt (mkRat (-101) 10)]),
      ("rms", [ScoreValue.flt (mkRat 1 2), ScoreValue.flt (mkRat 2 5)])] := by
  decide

/-- C5 as stated is false: on the claim's own rows `SCORE: 1 -12.3 0.5` /
`SCORE: 2 -10.1 0.4` (3 fields vs 2 header terms) the parser raises the
column-count error instead of returning the claimed table. -/
theorem score_parser_example_counterexample :
    extract_scores_from_scorefile
      ["SCORE: total_score rms", "SCORE: 1 -12.3 0.5", "SCORE: 2 -10.1 0.4"]
      0 "SCORE: " ["total_score", "rms"] ≠
    Except.ok [("total_score",
        [ScoreValue.flt (mkRat (-123) 10), ScoreValue.flt (mkRat (-101) 10)]),
      ("rms", [ScoreValue.flt (mkRat 1 2), ScoreValue.flt (mkRat 2 5)])] ∧
    (extract_scores_from_scorefile
      ["SCORE: total_score rms", "SCORE: 1 -12.3 0.5", "SCORE: 2 -10.1 0.4"]
      0 "SCORE: " ["total_score", "rms"]).isOk = false := by
  constructor <;> decide

theorem dictUpsert_append_of_not_mem {α β : Type} [DecidableEq α]
    {l : List (α × β)} {k : α} (v : β) (h : k ∉ l.map Prod.fst) :
    dictUpsert l k v = l ++ [(k, v)] := by
  induction l with
  | nil => rfl
  | cons p t ih =>
    obtain ⟨k', v'⟩ := p
    simp only [List.map_cons, List.mem_cons] at h
    push_neg at h
    simp only [dictUpsert, if_neg (Ne.symm h.1), List.cons_append,
      List.cons.injEq, true_and]
    exact ih h.2

theorem foldl_upsert_of_nodup {α β : Type} [DecidableEq α] :
    ∀ (ps : List (α × β)) (acc : List (α × β)),
    (acc.map Prod.fst ++ ps.map Prod.fst).Nodup →
    ps.foldl (fun a p => dictUpsert a p.1 p.2) acc = acc ++ ps := by
  intro ps
  induction ps with
  | nil =>
    intro acc _
    simp
  | cons p rest ih =>
    intro acc hnd
    have hmemKeys : p.1 ∉ acc.map Prod.fst := by
      rcases List.nodup_append.mp hnd with ⟨-, -, hdisj⟩
      intro hc
      exact hdisj hc (by simp)
    have hnd2 : ((acc ++ [p]).map Prod.fst ++ rest.map Prod.fst).Nodup := by
      simpa [List.append_assoc] using hnd
    simp only [List.foldl_cons]
    rw [dictUpsert_append_of_not_mem _ hmemKeys, ih (acc ++ [p]) hnd2]
    simp

theorem dictFind_of_mem_of_nodup {α β : Type} [DecidableEq α] :
    ∀ (ps : List (α × β)) {k : α} {v : β},
    (ps.map Prod.fst).Nodup → (k, v) ∈ ps → dictFind ps k = some v := by
  intro ps
  induction ps with
  | nil =>
    intro k v _ h
    simp at h
  | cons p t ih =>
    intro k v hnd hmem
    obtain ⟨k', v'⟩ := p
    rcases List.mem_cons.mp hmem with heq | hmem2
    · injection heq with h1 h2
      subst h1
      subst h2
      simp [dictFind]
    · rw [List.map_cons] at hnd
      have hknotin : k' ∉ t.map Prod.fst := (List.nodup_cons.mp hnd).1
      have hk : k' ≠ k := by
        rintro rfl
        exact hknotin (List.mem_map_of_mem Prod.fst hmem2)
      simp only [dictFind, if_neg hk]
      exact ih (List.nodup_cons.mp hnd).2 hmem2

theorem engine_eq_flat (variant native : String → List ℚ)
    (quartiles : List (String × ℚ)) (terms : List String) :
    extract_quartile_score_terms_from_scorefiles variant native quartiles
      terms =
    (terms.flatMap (fun t => quartiles.map (fun lq =>
      ("quartile_" ++ t ++ lq.1,
        determine_quartile_from_quartile_value_of_another_distribution lq.2
          (variant t) (native t))))).foldl
      (fun a p => dictUpsert a p.1 p.2) [] := by
  unfold extract_quartile_score_terms_from_scorefiles
  generalize ([] : List (String × Option ℚ)) = acc
  induction terms generalizing acc with
  | nil => simp
  | cons t rest ih =>
    simp only [List.foldl_cons, List.flatMap_cons, List.foldl_append]
    rw [ih]
    congr 1
    rw [List.foldl_map]

/-- C2 (amended): for every configured term and every configured named
quantile (default Q1=.25, Q2=.5, Q3=.75), the comparison engine's result
maps the key `"quartile_" + term + label` (not `"quantile_"` as the claim
spells it) to `quantile_of_value(value_at_quantile(q, variant[term]),
native[term])`, and its keys are exactly the term-quartile products, in loop
order, whenever those generated keys are distinct. -/
theorem quartile_comparison_engine_spec (variant native : String → List ℚ)
    (quartiles : List (String × ℚ)) (terms : List String)
    (hnd : (terms.flatMap (fun t => quartiles.map
      (fun lq => "quartile_" ++ t ++ lq.1))).Nodup) :
    ((extract_quartile_score_terms_from_scorefiles variant native quartiles
      terms).map Prod.fst =
      terms.flatMap (fun t => quartiles.map
        (fun lq => "quartile_" ++ t ++ lq.1))) ∧
    ∀ t ∈ terms, ∀ lq ∈ quartiles,
      dictFind (extract_quartile_score_terms_from_scorefiles variant native
        quartiles terms) ("quartile_" ++ t ++ lq.1) =
      some ((determine_quartile_value lq.2 (variant t)
        defaultTolerance).bind
        (fun v => determine_quartile v (native t) defaultTolerance)) := by
  have hkeys : (terms.flatMap (fun t => quartiles.map (fun lq =>
      ("quartile_" ++ t ++ lq.1,
        determine_quartile_from_quartile_value_of_another_distribution lq.2
          (variant t) (native t))))).map Prod.fst =
      terms.flatMap (fun t => quartiles.map
        (fun lq => "quartile_" ++ t ++ lq.1)) := by
    simp [List.map_flatMap, List.map_map, Function.comp_def]
  have hflat := engine_eq_flat variant native quartiles terms
  have hbuild : extract_quartile_score_terms_from_scorefiles variant native
      quartiles terms =
      terms.flatMap (fun t => quartiles.map (fun lq =>
        ("quartile_" ++ t ++ lq.1,
          determine_quartile_from_quartile_value_of_another_distribution lq.2
            (variant t) (native t)))) := by
    rw [hflat, foldl_upsert_of_nodup _ [] (by rw [hkeys]; simpa using hnd)]
    simp
  constructor
  · rw [hbuild, hkeys]
  · intro t ht lq hlq
    rw [hbuild]
    have hmem : ("quartile_" ++ t ++ lq.1,
        determine_quartile_from_quartile_value_of_another_distribution lq.2
          (variant t) (native t)) ∈
        terms.flatMap (fun t => quartiles.map (fun lq =>
          ("quartile_" ++ t ++ lq.1,
            determine_quartile_from_quartile_value_of_another_distribution
              lq.2 (variant t) (native t)))) := by
      refine List.mem_flatMap.mpr ⟨t, ht, ?_⟩
      exact List.mem_map_of_mem _ hlq
    rw [dictFind_of_mem_of_nodup _ (by rw [hkeys]; exact hnd) hmem]
    rfl

/-- Witness for C2's theorem with one term, one quartile (`Q1 = .25`) and
the distribution `[1,2,3,4,5]` on both sides. -/
theorem quartile_comparison_engine_spec_witness :
    ((extract_quartile_score_terms_from_scorefiles (fun _ => [1, 2, 3, 4, 5])
      (fun _ => [1, 2, 3, 4, 5]) [("Q1", 1/4)] ["total_score"]).map Prod.fst =
      ["total_score"].flatMap (fun t => [("Q1", (1/4 : ℚ))].map
        (fun lq => "quartile_" ++ t ++ lq.1))) ∧
    ∀ t ∈ ["total_score"], ∀ lq ∈ [("Q1", (1/4 : ℚ))],
      dictFind (extract_quartile_score_terms_from_scorefiles
        (fun _ => [1, 2, 3, 4, 5]) (fun _ => [1, 2, 3, 4, 5])
        [("Q1", 1/4)] ["total_score"]) ("quartile_" ++ t ++ lq.1) =
      some ((determine_quartile_value lq.2 [1, 2, 3, 4, 5]
        defaultTolerance).bind
        (fun v => determine_quartile v [1, 2, 3, 4, 5] defaultTolerance)) :=
  quartile_comparison_engine_spec (fun _ => [1, 2, 3, 4, 5])
    (fun _ => [1, 2, 3, 4, 5]) [("Q1", 1/4)] ["total_score"] (by decide)

/-- C2 as stated is false on the key spelling: the engine writes keys with
the prefix `"quartile_"`, so the claimed key `"quantile_total_scoreQ1"` is
not among its keys. -/
theorem quartile_comparison_engine_counterexample :
    (extract_quartile_score_terms_from_scorefiles (fun _ => [1, 2, 3, 4, 5])
      (fun _ => [1, 2, 3, 4, 5]) [("Q1", 1/4)] ["total_score"]).map Prod.fst =
      ["quartile_total_scoreQ1"] ∧
    (extract_quartile_score_terms_from_scorefiles (fun _ => [1, 2, 3, 4, 5])
      (fun _ => [1, 2, 3, 4, 5]) [("Q1", 1/4)] ["total_score"]).map Prod.fst ≠
      ["quantile_total_scoreQ1"] := by
  constructor <;> decide

theorem pdbLoop_length (aa_codes : String → Char) (tc : String) :
    ∀ (ls : List String) (last : Option String),
    (pdbLoop aa_codes tc ls last).1.length =
      (pdbLoop aa_codes tc ls last).2.length := by
  intro ls
  induction ls with
  | nil =>
    intro last
    rfl
  | cons i rest ih =>
    intro last
    simp only [pdbLoop]
    split
    · split
      · exact ih last
      · simp only [List.length_cons]
        rw [ih (some (pyStrip (pySlice i 22 27)))]
    · exact ih last

/-- C8 (amended): provided no residue-position label recurs
non-consecutively among the target chain's collapsed residues (so the
collapsed label list is duplicate-free), the Numbering Map is a bijection
from the labels onto the contiguous range [0, len(sequence)) built in
document order: its keys are exactly the collapsed labels in order, its
values are exactly 0, 1, ..., len(sequence)-1 in order, and the sequence
has one character per collapsed residue.  (Without that proviso the Python
dict built from the label list collapses repeated labels, keeping only the
last index, and the map is no longer onto the range - see the
counterexample.)  The spec's concrete example - records A10, A10, A11 and
B5 with target chain A - satisfies the proviso and yields a length-2
sequence with map {"10": 0, "11": 1} (see the witness). -/
theorem pdb_numbering_map_bijection (lines : List String)
    (target_chain : String) (aa_codes : String → Char)
    (hnodup : (pdbLoop aa_codes target_chain (lines.filter (fun i => pyTake i 4 = "ATOM")) none).2.Nodup) :
    ((extract_protein_sequence_from_pdb lines target_chain aa_codes).2).map Prod.fst = (pdbLoop aa_codes target_chain (lines.filter (fun i => pyTake i 4 = "ATOM")) none).2 ∧
    ((extract_protein_sequence_from_pdb lines target_chain aa_codes).2).map Prod.snd = List.range (extract_protein_sequence_from_pdb lines target_chain aa_codes).1.length ∧
    (extract_protein_sequence_from_pdb lines target_chain aa_codes).1.length = (pdbLoop aa_codes target_chain (lines.filter (fun i => pyTake i 4 = "ATOM")) none).2.length := by
  have hzf : ((pdbLoop aa_codes target_chain (lines.filter (fun i => pyTake i 4 = "ATOM")) none).2.zip (List.range (pdbLoop aa_codes target_chain (lines.filter (fun i => pyTake i 4 = "ATOM")) none).2.length)).map Prod.fst = (pdbLoop aa_codes target_chain (lines.filter (fun i => pyTake i 4 = "ATOM")) none).2 :=
    List.map_fst_zip _ _ (by simp)
  have hzs : ((pdbLoop aa_codes target_chain (lines.filter (fun i => pyTake i 4 = "ATOM")) none).2.zip (List.range (pdbLoop aa_codes target_chain (lines.filter (fun i => pyTake i 4 = "ATOM")) none).2.length)).map Prod.snd =
      List.range (pdbLoop aa_codes target_chain (lines.filter (fun i => pyTake i 4 = "ATOM")) none).2.length :=
    List.map_snd_zip _ _ (by simp)
  have hfold : ((pdbLoop aa_codes target_chain (lines.filter (fun i => pyTake i 4 = "ATOM")) none).2.zip (List.range (pdbLoop aa_codes target_chain (lines.filter (fun i => pyTake i 4 = "ATOM")) none).2.length)).foldl
      (fun acc p => dictUpsert acc p.1 p.2) [] =
      (pdbLoop aa_codes target_chain (lines.filter (fun i => pyTake i 4 = "ATOM")) none).2.zip (List.range (pdbLoop aa_codes target_chain (lines.filter (fun i => pyTake i 4 = "ATOM")) none).2.length) := by
    refine foldl_upsert_of_nodup _ [] ?_
    simp only [List.map_nil, List.nil_append]
    rw [hzf]
    exact hnodup
  have hslen : (extract_protein_sequence_from_pdb lines target_chain aa_codes).1.length = (pdbLoop aa_codes target_chain (lines.filter (fun i => pyTake i 4 = "ATOM")) none).2.length := by
    simp only [extract_protein_sequence_from_pdb]
    exact pdbLoop_length aa_codes target_chain _ none
  refine ⟨?_, ?_, hslen⟩
  · simp only [extract_protein_sequence_from_pdb] at hfold ⊢
    rw [hfold, hzf]
  · simp only [extract_protein_sequence_from_pdb] at hfold hzs ⊢
    rw [hfold, hzs]
    exact congrArg List.range
      (pdbLoop_length aa_codes target_chain _ none).symm

/-- Witness for C8's theorem on the spec's example records (A10, A10, A11,
B5, target chain A): the collapsed labels are distinct, the keys come out
as ["10", "11"], the values as [0, 1], and the sequence has length 2. -/
theorem pdb_numbering_map_bijection_witness :
    ((extract_protein_sequence_from_pdb pdbExampleLines "A"
      pdbExampleCodes).2).map Prod.fst =
      (pdbLoop pdbExampleCodes "A"
        (pdbExampleLines.filter (fun i => pyTake i 4 = "ATOM")) none).2 ∧
    ((extract_protein_sequence_from_pdb pdbExampleLines "A"
      pdbExampleCodes).2).map Prod.snd =
      List.range (extract_protein_sequence_from_pdb pdbExampleLines "A"
        pdbExampleCodes).1.length ∧
    (extract_protein_sequence_from_pdb pdbExampleLines "A"
      pdbExampleCodes).1.length =
      (pdbLoop pdbExampleCodes "A"
        (pdbExampleLines.filter (fun i => pyTake i 4 = "ATOM")) none).2.length :=
  pdb_numbering_map_bijection pdbExampleLines "A" pdbExampleCodes (by decide)

/-- C8 as stated is false when a residue label recurs non-consecutively:
on chain-A records with labels 10, 11, 10 the sequence has 3 characters but
the Numbering Map has only the values [2, 1] - the index 0 is lost to the
dict collapse, so the map is not a bijection onto [0, 3). -/
theorem pdb_numbering_map_counterexample :
    (extract_protein_sequence_from_pdb pdbDupLines "A"
      pdbExampleCodes).1.length = 3 ∧
    ((extract_protein_sequence_from_pdb pdbDupLines "A"
      pdbExampleCodes).2).map Prod.snd = [2, 1] := by
  constructor <;> decide

theorem dictFind_upsert_self {α β : Type} [DecidableEq α]
    (l : List (α × β)) (k : α) (v : β) :
    dictFind (dictUpsert l k v) k = some v := by
  induction l with
  | nil => simp [dictUpsert, dictFind]
  | cons p t ih =>
    obtain ⟨k', v'⟩ := p
    by_cases h : k' = k
    · simp [dictUpsert, dictFind, h]
    · simp only [dictUpsert, if_neg h, dictFind]
      exact ih

theorem dictFind_upsert_ne {α β : Type} [DecidableEq α]
    (l : List (α × β)) {k k2 : α} (v : β) (h : k ≠ k2) :
    dictFind (dictUpsert l k v) k2 = dictFind l k2 := by
  induction l with
  | nil => simp [dictUpsert, dictFind, h]
  | cons p t ih =>
    obtain ⟨k', v'⟩ := p
    by_cases hk : k' = k
    · subst hk
      simp only [dictUpsert, if_pos rfl, dictFind, if_neg h]
    · simp only [dictUpsert, if_neg hk, dictFind]
      by_cases hk2 : k' = k2
      · rw [if_pos hk2, if_pos hk2]
      · rw [if_neg hk2, if_neg hk2]
        exact ih

theorem dictFind_isSome_upsert {α β : Type} [DecidableEq α]
    (l : List (α × β)) {p : α} (k : α) (v : β)
    (h : (dictFind l p).isSome = true) :
    (dictFind (dictUpsert l k v) p).isSome = true := by
  by_cases hk : k = p
  · subst hk
    rw [dictFind_upsert_self]
    rfl
  · rw [dictFind_upsert_ne _ _ hk]
    exact h

theorem buildPssmEntry_position {aaF : List String} {na : ℕ}
    {ff : List String} {e : PssmEntry}
    (h : buildPssmEntry aaF na ff = some e) :
    parsePyInt (ff.getD 0 "") = some e.position := by
  simp only [buildPssmEntry, Option.bind_eq_some, Option.map_eq_some'] at h
  obtain ⟨pos, hpos, lls, hlls, fqs, hfqs, info, hinfo, ex, hex, he⟩ := h
  rw [hpos, ← he]

theorem pssmData_presence {aaF : List String} {na most : ℕ} :
    ∀ (ls : List (List String)) (acc d : List (ℤ × PssmEntry)),
    pssmData aaF na most ls acc = Except.ok d →
    ∀ p, (dictFind acc p).isSome = true → (dictFind d p).isSome = true := by
  intro ls
  induction ls with
  | nil =>
    intro acc d h p hp
    cases h
    exact hp
  | cons ff rest ih =>
    intro acc d h p hp
    simp only [pssmData] at h
    by_cases hlen : ff.length = most
    · rw [if_pos hlen] at h
      cases hbe : buildPssmEntry aaF na ff with
      | none =>
        rw [hbe] at h
        cases h
      | some e =>
        rw [hbe] at h
        exact ih _ _ h p (dictFind_isSome_upsert _ _ _ hp)
    · rw [if_neg hlen] at h
      exact ih _ _ h p hp

theorem pssmData_keys {aaF : List String} {na most : ℕ} :
    ∀ (ls : List (List String)) (acc d : List (ℤ × PssmEntry)),
    pssmData aaF na most ls acc = Except.ok d →
    ∀ ff ∈ ls, ff.length = most →
    ∃ p e, parsePyInt (ff.getD 0 "") = some p ∧ dictFind d p = some e := by
  intro ls
  induction ls with
  | nil =>
    intro acc d _ ff hff
    simp at hff
  | cons ff0 rest ih =>
    intro acc d h ff hff hlen
    simp only [pssmData] at h
    rcases List.mem_cons.mp hff with rfl | hmem
    · rw [if_pos hlen] at h
      cases hbe : buildPssmEntry aaF na ff with
      | none =>
        rw [hbe] at h
        cases h
      | some e =>
        rw [hbe] at h
        have hpos := buildPssmEntry_position hbe
        have hpres := pssmData_presence rest _ d h e.position
          (by rw [dictFind_upsert_self]; rfl)
        obtain ⟨e2, he2⟩ := Option.isSome_iff_exists.mp hpres
        exact ⟨e.position, e2, hpos, he2⟩
    · by_cases hlen0 : ff0.length = most
      · rw [if_pos hlen0] at h
        cases hbe : buildPssmEntry aaF na ff0 with
        | none =>
          rw [hbe] at h
          cases h
        | some e =>
          rw [hbe] at h
          exact ih _ _ h ff hmem hlen
      · rw [if_neg hlen0] at h
        exact ih _ _ h ff hmem hlen

theorem pssmData_values {aaF : List String} {na most : ℕ} :
    ∀ (ls : List (List String)) (acc d : List (ℤ × PssmEntry)),
    pssmData aaF na most ls acc = Except.ok d →
    ∀ p e, dictFind d p = some e →
    dictFind acc p = some e ∨
      ∃ ff ∈ ls, ff.length = most ∧ buildPssmEntry aaF na ff = some e ∧
        e.position = p := by
  intro ls
  induction ls with
  | nil =>
    intro acc d h p e hfind
    cases h
    exact Or.inl hfind
  | cons ff0 rest ih =>
    intro acc d h p e hfind
    simp only [pssmData] at h
    by_cases hlen0 : ff0.length = most
    · rw [if_pos hlen0] at h
      cases hbe : buildPssmEntry aaF na ff0 with
      | none =>
        rw [hbe] at h
        cases h
      | some e0 =>
        rw [hbe] at h
        rcases ih _ _ h p e hfind with hacc | ⟨ff, hmem, h1, h2, h3⟩
        · by_cases hp : e0.position = p
          · subst hp
            rw [dictFind_upsert_self] at hacc
            injection hacc with hacc
            subst hacc
            exact Or.inr ⟨ff0, List.mem_cons_self _ _, hlen0, hbe, rfl⟩
          · rw [dictFind_upsert_ne _ _ hp] at hacc
            exact Or.inl hacc
        · exact Or.inr ⟨ff, List.mem_cons_of_mem _ hmem, h1, h2, h3⟩
    · rw [if_neg hlen0] at h
      rcases ih _ _ h p e hfind with hacc | ⟨ff, hmem, h1, h2, h3⟩
      · exact Or.inl hacc
      · exact Or.inr ⟨ff, List.mem_cons_of_mem _ hmem, h1, h2, h3⟩

theorem pssmData_append_skip {aaF : List String} {na most : ℕ}
    {ff2 : List String} (hne : ¬ ff2.length = most) :
    ∀ (ls : List (List String)) (acc : List (ℤ × PssmEntry)),
    pssmData aaF na most (ls ++ [ff2]) acc = pssmData aaF na most ls acc := by
  intro ls
  induction ls with
  | nil =>
    intro acc
    simp only [List.nil_append, pssmData, if_neg hne]
  | cons ff0 rest ih =>
    intro acc
    simp only [List.cons_append, pssmData]
    by_cases hlen0 : ff0.length = most
    · rw [if_pos hlen0, if_pos hlen0]
      cases hbe : buildPssmEntry aaF na ff0 with
      | none => rfl
      | some e => exact ih _
    · rw [if_neg hlen0, if_neg hlen0]
      exact ih _

theorem splitAllLines_append {lines : List String} {sls : List (List String)}
    (h : splitAllLines lines = some sls) {l : String} {ff2 : List String}
    (hl : splitPssmLine l = some ff2) :
    splitAllLines (lines ++ [l]) = some (sls ++ [ff2]) := by
  induction lines generalizing sls with
  | nil =>
    cases h
    simp [splitAllLines, hl]
  | cons l0 rest ih =>
    simp only [splitAllLines] at h
    cases h0 : splitPssmLine l0 with
    | none =>
      rw [h0] at h
      cases h
    | some ff0 =>
      cases hr : splitAllLines rest with
      | none =>
        rw [h0, hr] at h
        cases h
      | some sls0 =>
        rw [h0, hr] at h
        injection h with h
        subst h
        simp only [List.cons_append, splitAllLines, h0, List.append_eq, ih hr]

theorem foldr_max_init : ∀ (l : List ℕ) (a : ℕ), l.foldr max a = max (l.foldr max 0) a := by
  intro l
  induction l with
  | nil =>
    intro a
    simp
  | cons x t ih =>
    intro a
    simp only [List.foldr_cons, ih a, Nat.max_assoc]

theorem maxNat_concat (l : List ℕ) (b : ℕ) :
    maxNat (l ++ [b]) = max (maxNat l) b := by
  unfold maxNat
  rw [List.foldr_append]
  simp only [List.foldr_cons, List.foldr_nil, Nat.max_zero]
  exact foldr_max_init l b

theorem extract_pssm_ok_inversion (lines : List String) (columns : ℕ)
    (sls : List (List String)) (d : List (ℤ × PssmEntry))
    (hsplit : splitAllLines lines = some sls)
    (hok : extract_pssm_from_psiblast_pssm lines (-4) columns = Except.ok d) :
    sls ≠ [] ∧
    (sls.filter (fun ff => (ff.length : ℤ) = (maxNat (sls.map List.length) : ℤ) + (-4))).length = 1 ∧
    ((sls.filter (fun ff => (ff.length : ℤ) = (maxNat (sls.map List.length) : ℤ) + (-4))).getD 0 []).length / 2 * 2 = ((sls.filter (fun ff => (ff.length : ℤ) = (maxNat (sls.map List.length) : ℤ) + (-4))).getD 0 []).length ∧
    ((sls.filter (fun ff => (ff.length : ℤ) = (maxNat (sls.map List.length) : ℤ) + (-4))).getD 0 []).length / 2 = columns ∧
    ((List.range (((sls.filter (fun ff => (ff.length : ℤ) = (maxNat (sls.map List.length) : ℤ) + (-4))).getD 0 []).length / 2)).all (fun x =>
      pyStrip (((sls.filter (fun ff => (ff.length : ℤ) = (maxNat (sls.map List.length) : ℤ) + (-4))).getD 0 []).getD x "") =
        pyStrip (((sls.filter (fun ff => (ff.length : ℤ) = (maxNat (sls.map List.length) : ℤ) + (-4))).getD 0 []).getD (x + ((sls.filter (fun ff => (ff.length : ℤ) = (maxNat (sls.map List.length) : ℤ) + (-4))).getD 0 []).length / 2) "")) = true) ∧
    pssmData ((((sls.filter (fun ff => (ff.length : ℤ) = (maxNat (sls.map List.length) : ℤ) + (-4))).getD 0 []).take (((sls.filter (fun ff => (ff.length : ℤ) = (maxNat (sls.map List.length) : ℤ) + (-4))).getD 0 []).length / 2)).map pyStrip)
      (((sls.filter (fun ff => (ff.length : ℤ) = (maxNat (sls.map List.length) : ℤ) + (-4))).getD 0 []).length / 2) (maxNat (sls.map List.length)) sls [] = Except.ok d := by
  simp only [extract_pssm_from_psiblast_pssm, hsplit] at hok
  by_cases hemp : sls.isEmpty = true
  · rw [if_pos hemp] at hok
    exact Except.noConfusion hok
  · rw [if_neg hemp] at hok
    by_cases h1 : (sls.filter (fun ff => (ff.length : ℤ) = (maxNat (sls.map List.length) : ℤ) + (-4))).length = 1
    · rw [dif_pos h1] at hok
      by_cases h2 : ((sls.filter (fun ff => (ff.length : ℤ) = (maxNat (sls.map List.length) : ℤ) + (-4))).getD 0 []).length / 2 * 2 = ((sls.filter (fun ff => (ff.length : ℤ) = (maxNat (sls.map List.length) : ℤ) + (-4))).getD 0 []).length
      · rw [if_pos h2] at hok
        by_cases h3 : ((sls.filter (fun ff => (ff.length : ℤ) = (maxNat (sls.map List.length) : ℤ) + (-4))).getD 0 []).length / 2 = columns
        · rw [if_pos h3] at hok
          by_cases h4 : ((List.range (((sls.filter (fun ff => (ff.length : ℤ) = (maxNat (sls.map List.length) : ℤ) + (-4))).getD 0 []).length / 2)).all (fun x =>
              pyStrip (((sls.filter (fun ff => (ff.length : ℤ) = (maxNat (sls.map List.length) : ℤ) + (-4))).getD 0 []).getD x "") =
                pyStrip (((sls.filter (fun ff => (ff.length : ℤ) = (maxNat (sls.map List.length) : ℤ) + (-4))).getD 0 []).getD (x + ((sls.filter (fun ff => (ff.length : ℤ) = (maxNat (sls.map List.length) : ℤ) + (-4))).getD 0 []).length / 2) "")) = true)
          · rw [if_pos h4] at hok
            exact ⟨fun hc => hemp (by simp [hc]), h1, h2, h3, h4, hok⟩
          · rw [if_neg h4] at hok
            exact Except.noConfusion hok
        · rw [if_neg h3] at hok
          exact Except.noConfusion hok
      · rw [if_neg h2] at hok
        exact Except.noConfusion hok
    · rw [dif_neg h1] at hok
      exact Except.noConfusion hok

/-- C6 (amended): the PSSM parser succeeds only if exactly one tokenized
line has (maximum observed field count - 4) fields; zero or two-or-more
such lines make it fail with the ambiguous-header assertion.  On success
the header line has exactly `2 * columns` fields (2 x 20 by default) and
its first half of stripped labels equals, position by position, its second
half - each header column pairs with the column `columns` later carrying
the same letter.  (The parser does NOT require each letter to occupy
exactly two columns, nor 20 DISTINCT letters: a header whose first half
repeats a letter passes all checks - see the counterexample.) -/
theorem pssm_header_identification (lines : List String) (columns : ℕ)
    (sls : List (List String)) (hsplit : splitAllLines lines = some sls) :
    (∀ d, extract_pssm_from_psiblast_pssm lines (-4) columns = Except.ok d →
      (sls.filter (fun ff => (ff.length : ℤ) = (maxNat (sls.map List.length) : ℤ) + (-4))).length = 1 ∧
      ((sls.filter (fun ff => (ff.length : ℤ) = (maxNat (sls.map List.length) : ℤ) + (-4))).getD 0 []).length = 2 * columns ∧
      ∀ x < columns, pyStrip (((sls.filter (fun ff => (ff.length : ℤ) = (maxNat (sls.map List.length) : ℤ) + (-4))).getD 0 []).getD x "") =
        pyStrip (((sls.filter (fun ff => (ff.length : ℤ) = (maxNat (sls.map List.length) : ℤ) + (-4))).getD 0 []).getD (x + columns) "")) ∧
    ((sls.filter (fun ff => (ff.length : ℤ) = (maxNat (sls.map List.length) : ℤ) + (-4))).length ≠ 1 → sls ≠ [] →
      extract_pssm_from_psiblast_pssm lines (-4) columns =
        Except.error (PssmErr.ambiguousHeader (sls.filter (fun ff => (ff.length : ℤ) = (maxNat (sls.map List.length) : ℤ) + (-4))).length)) := by
  constructor
  · intro d hok
    obtain ⟨hne, h1, h2, h3, h4, hlast⟩ :=
      extract_pssm_ok_inversion lines columns sls d hsplit hok
    refine ⟨h1, by omega, ?_⟩
    intro x hx
    have h4' := List.all_eq_true.mp h4 x
      (List.mem_range.mpr (by omega : x < ((sls.filter (fun ff => (ff.length : ℤ) = (maxNat (sls.map List.length) : ℤ) + (-4))).getD 0 []).length / 2))
    rw [h3] at h4'
    simpa using h4'
  · intro hne1 hne2
    simp only [extract_pssm_from_psiblast_pssm, hsplit]
    rw [if_neg (by simpa [List.isEmpty_iff] using hne2), dif_neg hne1]

/-- Witness for C6's theorem on a minimal well-formed matrix with a
2-letter alphabet: one 8-field data line and one 4-field header line. -/
theorem pssm_header_identification_witness :
    (∀ d, extract_pssm_from_psiblast_pssm
        [" 1 X 1 2 3 4 0.5 1.0", " A C A C"] (-4) 2 = Except.ok d →
      ((([[" 1", " X", " 1", " 2", " 3", " 4", " 0.5", " 1.0"],
          [" A", " C", " A", " C"]] : List (List String)).filter
        (fun ff => (ff.length : ℤ) =
          (maxNat (([[" 1", " X", " 1", " 2", " 3", " 4", " 0.5", " 1.0"],
            [" A", " C", " A", " C"]] : List (List String)).map
            List.length) : ℤ) + (-4))).length = 1 ∧
      ((([[" 1", " X", " 1", " 2", " 3", " 4", " 0.5", " 1.0"],
          [" A", " C", " A", " C"]] : List (List String)).filter
        (fun ff => (ff.length : ℤ) =
          (maxNat (([[" 1", " X", " 1", " 2", " 3", " 4", " 0.5", " 1.0"],
            [" A", " C", " A", " C"]] : List (List String)).map
            List.length) : ℤ) + (-4))).getD 0 []).length = 2 * 2 ∧
      ∀ x < 2, pyStrip (((([[" 1", " X", " 1", " 2", " 3", " 4", " 0.5",
          " 1.0"], [" A", " C", " A", " C"]] : List (List String)).filter
        (fun ff => (ff.length : ℤ) =
          (maxNat (([[" 1", " X", " 1", " 2", " 3", " 4", " 0.5", " 1.0"],
            [" A", " C", " A", " C"]] : List (List String)).map
            List.length) : ℤ) + (-4))).getD 0 []).getD x "") =
        pyStrip (((([[" 1", " X", " 1", " 2", " 3", " 4", " 0.5", " 1.0"],
          [" A", " C", " A", " C"]] : List (List String)).filter
        (fun ff => (ff.length : ℤ) =
          (maxNat (([[" 1", " X", " 1", " 2", " 3", " 4", " 0.5", " 1.0"],
            [" A", " C", " A", " C"]] : List (List String)).map
            List.length) : ℤ) + (-4))).getD 0 []).getD (x + 2) ""))) ∧
    (((([[" 1", " X", " 1", " 2", " 3", " 4", " 0.5", " 1.0"],
        [" A", " C", " A", " C"]] : List (List String)).filter
      (fun ff => (ff.length : ℤ) =
        (maxNat (([[" 1", " X", " 1", " 2", " 3", " 4", " 0.5", " 1.0"],
          [" A", " C", " A", " C"]] : List (List String)).map
          List.length) : ℤ) + (-4))).length ≠ 1 →
      ([[" 1", " X", " 1", " 2", " 3", " 4", " 0.5", " 1.0"],
        [" A", " C", " A", " C"]] : List (List String)) ≠ [] →
      extract_pssm_from_psiblast_pssm
        [" 1 X 1 2 3 4 0.5 1.0", " A C A C"] (-4) 2 =
        Except.error (PssmErr.ambiguousHeader
          (([[" 1", " X", " 1", " 2", " 3", " 4", " 0.5", " 1.0"],
            [" A", " C", " A", " C"]] : List (List String)).filter
          (fun ff => (ff.length : ℤ) =
            (maxNat (([[" 1", " X", " 1", " 2", " 3", " 4", " 0.5", " 1.0"],
              [" A", " C", " A", " C"]] : List (List String)).map
              List.length) : ℤ) + (-4))).length))) :=
  pssm_header_identification [" 1 X 1 2 3 4 0.5 1.0", " A C A C"] 2
    [[" 1", " X", " 1", " 2", " 3", " 4", " 0.5", " 1.0"],
      [" A", " C", " A", " C"]] (by decide)

set_option maxRecDepth 400000 in
/-- C6 as stated is false in its per-letter condition: on a matrix whose
header repeats the letter `A` in columns 0, 1, 20 and 21 (and has only 19
distinct letters), every check passes and the parse succeeds, although `A`
does not occupy exactly two columns and the distinct-letter count is not
the alphabet size 20. -/
theorem pssm_header_identification_counterexample :
    (extract_pssm_from_psiblast_pssm [pssmDataLine1, pssmDupHeaderLine]
      (-4) 20).isOk = true ∧
    ((((splitAllLines [pssmDataLine1, pssmDupHeaderLine]).getD []).getD 1
      []).map pyStrip).count "A" = 4 ∧
    ((((splitAllLines [pssmDataLine1, pssmDupHeaderLine]).getD []).getD 1
      []).map pyStrip).dedup.length = 19 := by
  refine ⟨by decide, by decide, by decide⟩

/-- C7 (amended): on a successful parse, every tokenized line whose field
count equals the maximum observed field count contributes an entry to the
returned dictionary under its integer position (first field), and every
entry of the dictionary comes from such a line via `buildPssmEntry`
(position, query identity, per-letter log-likelihoods, per-letter
frequencies divided by 100, information content, relative weight); a line
with strictly fewer fields than the maximum (other than the header count)
is skipped: appending it to the file leaves the result unchanged.  The
original claim's fixed counts (44 fields, field index 42/43) hold only for
the 20-letter alphabet; the parser itself works off the observed maximum.
Entries are keyed by position alone, so a repeated position number
OVERWRITES the earlier entry rather than erroring - see the
counterexample, where two full data lines for position 1 yield a
single-entry dictionary. -/
theorem pssm_data_extraction (lines : List String) (columns : ℕ)
    (sls : List (List String)) (d : List (ℤ × PssmEntry))
    (hsplit : splitAllLines lines = some sls)
    (hok : extract_pssm_from_psiblast_pssm lines (-4) columns = Except.ok d) :
    (∀ ff ∈ sls, ff.length = maxNat (sls.map List.length) →
      ∃ p e, parsePyInt (ff.getD 0 "") = some p ∧ dictFind d p = some e) ∧
    (∀ p e, dictFind d p = some e →
      ∃ ff ∈ sls, ff.length = maxNat (sls.map List.length) ∧
        buildPssmEntry ((((sls.filter (fun ff => (ff.length : ℤ) = (maxNat (sls.map List.length) : ℤ) + (-4))).getD 0 []).take columns).map pyStrip) columns ff =
          some e ∧ e.position = p) ∧
    (∀ l ff2, splitPssmLine l = some ff2 → ff2.length < maxNat (sls.map List.length) →
      (ff2.length : ℤ) ≠ (maxNat (sls.map List.length) : ℤ) + (-4) →
      extract_pssm_from_psiblast_pssm (lines ++ [l]) (-4) columns =
        Except.ok d) := by
  obtain ⟨hne, h1, h2, h3, h4, hlast⟩ :=
    extract_pssm_ok_inversion lines columns sls d hsplit hok
  rw [h3] at hlast
  refine ⟨pssmData_keys sls [] d hlast, ?_, ?_⟩
  · intro p e hfind
    rcases pssmData_values sls [] d hlast p e hfind with hacc | h
    · simp [dictFind] at hacc
    · exact h
  · intro l ff2 hsl hlt hshift
    have hsplit2 := splitAllLines_append hsplit hsl
    have hmax2 : maxNat ((sls ++ [ff2]).map List.length) = maxNat (sls.map List.length) := by
      rw [List.map_append]
      simp only [List.map_cons, List.map_nil]
      rw [maxNat_concat]
      exact Nat.max_eq_left (Nat.le_of_lt hlt)
    have hfil2 : (sls ++ [ff2]).filter
        (fun ff => (ff.length : ℤ) = (maxNat (sls.map List.length) : ℤ) + (-4)) = (sls.filter (fun ff => (ff.length : ℤ) = (maxNat (sls.map List.length) : ℤ) + (-4))) := by
      rw [List.filter_append]
      have hsing : ([ff2].filter
          (fun ff => (ff.length : ℤ) = (maxNat (sls.map List.length) : ℤ) + (-4))) = [] := by
        simp [hshift]
      rw [hsing, List.append_nil]
    simp only [extract_pssm_from_psiblast_pssm, hsplit2]
    rw [hmax2, hfil2]
    rw [if_neg (by simp : ¬ (sls ++ [ff2]).isEmpty = true)]
    rw [dif_pos h1, if_pos h2, if_pos h3, if_pos h4]
    rw [h3]
    rw [pssmData_append_skip (Nat.ne_of_lt hlt) sls []]
    exact hlast

/-- Witness for C7's theorem on the minimal 2-letter matrix: one data line
with 8 fields and the 4-field header. -/
theorem pssm_data_extraction_witness :
    (∀ ff ∈ ([[" 1", " X", " 1", " 2", " 3", " 4", " 0.5", " 1.0"], [" A", " C", " A", " C"]] : List (List String)), ff.length = maxNat (([[" 1", " X", " 1", " 2", " 3", " 4", " 0.5", " 1.0"], [" A", " C", " A", " C"]] : List (List String)).map List.length) →
      ∃ p e, parsePyInt (ff.getD 0 "") = some p ∧
        dictFind ([((1 : ℤ), (⟨1, " X", [("A", 1), ("C", 2)], [("A", mkRat 3 100), ("C", mkRat 1 25)], mkRat 1 2, 1⟩ : PssmEntry))] : List (ℤ × PssmEntry)) p = some e) ∧
    (∀ p e, dictFind ([((1 : ℤ), (⟨1, " X", [("A", 1), ("C", 2)], [("A", mkRat 3 100), ("C", mkRat 1 25)], mkRat 1 2, 1⟩ : PssmEntry))] : List (ℤ × PssmEntry)) p = some e →
      ∃ ff ∈ ([[" 1", " X", " 1", " 2", " 3", " 4", " 0.5", " 1.0"], [" A", " C", " A", " C"]] : List (List String)), ff.length = maxNat (([[" 1", " X", " 1", " 2", " 3", " 4", " 0.5", " 1.0"], [" A", " C", " A", " C"]] : List (List String)).map List.length) ∧
        buildPssmEntry ((((([[" 1", " X", " 1", " 2", " 3", " 4", " 0.5", " 1.0"], [" A", " C", " A", " C"]] : List (List String)).filter (fun ff => (ff.length : ℤ) = (maxNat (([[" 1", " X", " 1", " 2", " 3", " 4", " 0.5", " 1.0"], [" A", " C", " A", " C"]] : List (List String)).map List.length) : ℤ) + (-4))).getD 0 []).take 2).map pyStrip) 2 ff = some e ∧
        e.position = p) ∧
    (∀ l ff2, splitPssmLine l = some ff2 → ff2.length < maxNat (([[" 1", " X", " 1", " 2", " 3", " 4", " 0.5", " 1.0"], [" A", " C", " A", " C"]] : List (List String)).map List.length) →
      (ff2.length : ℤ) ≠ (maxNat (([[" 1", " X", " 1", " 2", " 3", " 4", " 0.5", " 1.0"], [" A", " C", " A", " C"]] : List (List String)).map List.length) : ℤ) + (-4) →
      extract_pssm_from_psiblast_pssm
        ([" 1 X 1 2 3 4 0.5 1.0", " A C A C"] ++ [l]) (-4) 2 =
        Except.ok ([((1 : ℤ), (⟨1, " X", [("A", 1), ("C", 2)], [("A", mkRat 3 100), ("C", mkRat 1 25)], mkRat 1 2, 1⟩ : PssmEntry))] : List (ℤ × PssmEntry))) :=
  pssm_data_extraction [" 1 X 1 2 3 4 0.5 1.0", " A C A C"] 2
    [[" 1", " X", " 1", " 2", " 3", " 4", " 0.5", " 1.0"],
      [" A", " C", " A", " C"]]
    ([((1 : ℤ), (⟨1, " X", [("A", 1), ("C", 2)], [("A", mkRat 3 100), ("C", mkRat 1 25)], mkRat 1 2, 1⟩ : PssmEntry))] : List (ℤ × PssmEntry)) (by decide) (by decide)

set_option maxRecDepth 600000 in
/-- C7's per-line clause "adds an entry keyed by the integer position" is
refuted for distinct lines sharing a position: a matrix whose two 44-field
data lines both carry position 1 parses successfully to a ONE-entry
dictionary (the second line overwrote the first), although two lines have
the maximum field count. -/
theorem pssm_data_extraction_counterexample :
    (extract_pssm_from_psiblast_pssm
        [pssmDataLine1, pssmDataLine1b, pssmGoodHeaderLine] (-4) 20).isOk =
      true ∧
    (∀ d, extract_pssm_from_psiblast_pssm
        [pssmDataLine1, pssmDataLine1b, pssmGoodHeaderLine] (-4) 20 =
        Except.ok d → d.length = 1) ∧
    (((splitAllLines [pssmDataLine1, pssmDataLine1b,
        pssmGoodHeaderLine]).getD []).filter
      (fun ff => ff.length = maxNat
        (((splitAllLines [pssmDataLine1, pssmDataLine1b,
          pssmGoodHeaderLine]).getD []).map List.length))).length = 2 := by
  refine ⟨by decide, ?_, by decide⟩
  intro d hd
  have : extract_pssm_from_psiblast_pssm
      [pssmDataLine1, pssmDataLine1b, pssmGoodHeaderLine] (-4) 20 =
      Except.ok [((1 : ℤ),
        (⟨1, " Y",
          [("A", 0), ("C", 0), ("D", 0), ("E", 0), ("F", 0), ("G", 0),
            ("H", 0), ("I", 0), ("K", 0), ("L", 0), ("M", 0), ("N", 0),
            ("P", 0), ("Q", 0), ("R", 0), ("S", 0), ("T", 0), ("V", 0),
            ("W", 0), ("Y", 0)],
          [("A", 1), ("C", 0), ("D", 0), ("E", 0), ("F", 0), ("G", 0),
            ("H", 0), ("I", 0), ("K", 0), ("L", 0), ("M", 0), ("N", 0),
            ("P", 0), ("Q", 0), ("R", 0), ("S", 0), ("T", 0), ("V", 0),
            ("W", 0), ("Y", 0)],
          mkRat 1 4, 1⟩ : PssmEntry))] := by decide
  rw [this] at hd
  cases hd
  decide
